import Mathlib

/-
Verification of the BlueBuzzah2 firmware core against its design
specification.

This file shallowly embeds the core subsystems of the firmware
(src/state.py, src/ble.py, src/sync.py, src/therapy.py) in Lean 4 and
proves or refutes the specification's claims about them.

Modelling conventions, used throughout:
* Python floats are modelled as rationals (ℚ): the claims under study are
  about the algebraic structure of the computations, not about rounding.
* Python strings are modelled as lists of characters (`List Char`);
  UTF-8 encode/decode is the identity on this representation.
* Python's `random.Random` (standard library, not repository code) is
  modelled as a deterministic stream of draws: a stream of naturals
  feeding `_randbelow` (used by `shuffle`) and a stream of rationals in
  [0, 1) feeding `random()` (used by `uniform`).  Quantifying over all
  streams covers all seeds.
* Exceptions are modelled with `Except` / `Option`.
* Python truthiness tests on numbers (`if x:`) are modelled explicitly:
  `None` and `0` are falsy.
-/

namespace BlueBuzzah

/-! ## Therapy session state machine (src/state.py, core/types.py) -/

/-- The `TherapyState` enum from core/types.py. -/
inductive TherapyState
  | IDLE
  | CONNECTING
  | READY
  | RUNNING
  | PAUSED
  | STOPPING
  | ERROR
  | LOW_BATTERY
  | CRITICAL_BATTERY
  | CONNECTION_LOST
  | PHONE_DISCONNECTED
deriving DecidableEq

/-- `TherapyStateMachine._determine_next_state` from src/state.py, lines
185-234.  Triggers are the string constants of `StateTrigger`; an
unmatched (state, trigger) pair falls through to `return current`. -/
def determine_next_state (current : TherapyState) (trigger : String) : TherapyState :=
  if trigger = "CONNECTED" then
    if current = TherapyState.IDLE then TherapyState.READY else current
  else if trigger = "DISCONNECTED" then
    TherapyState.CONNECTION_LOST
  else if trigger = "START_SESSION" then
    if current = TherapyState.READY ∨ current = TherapyState.IDLE then
      TherapyState.RUNNING
    else current
  else if trigger = "PAUSE_SESSION" then
    if current = TherapyState.RUNNING then TherapyState.PAUSED else current
  else if trigger = "RESUME_SESSION" then
    if current = TherapyState.PAUSED then TherapyState.RUNNING else current
  else if trigger = "STOP_SESSION" then
    if current = TherapyState.RUNNING ∨ current = TherapyState.PAUSED then
      TherapyState.STOPPING
    else current
  else if trigger = "STOPPED" then
    if current = TherapyState.STOPPING then TherapyState.IDLE else current
  else if trigger = "ERROR" then
    TherapyState.ERROR
  else if trigger = "EMERGENCY_STOP" then
    TherapyState.ERROR
  else
    current

/-- `TherapyStateMachine.transition` from src/state.py, lines 117-155:
returns the success flag together with the state after the call
(`get_current_state()`'s value afterwards).  Both the no-change branch
and the change branch return `True`. -/
def transition (current : TherapyState) (trigger : String) : Bool × TherapyState :=
  let new_state := determine_next_state current trigger
  if new_state = current then
    (true, current)
  else
    (true, new_state)

/-- The fixed transition table as §4.1 of the spec lists it, written
independently of `determine_next_state`: a (state, trigger) pair is in
the table exactly when one of the listed rules applies to it. -/
def inTransitionTable (s : TherapyState) (trigger : String) : Bool :=
  (trigger == "CONNECTED" && s == TherapyState.IDLE) ||
  (trigger == "START_SESSION" && (s == TherapyState.IDLE || s == TherapyState.READY)) ||
  (trigger == "PAUSE_SESSION" && s == TherapyState.RUNNING) ||
  (trigger == "RESUME_SESSION" && s == TherapyState.PAUSED) ||
  (trigger == "STOP_SESSION" && (s == TherapyState.RUNNING || s == TherapyState.PAUSED)) ||
  (trigger == "STOPPED" && s == TherapyState.STOPPING) ||
  trigger == "DISCONNECTED" ||
  trigger == "ERROR" ||
  trigger == "EMERGENCY_STOP"

/-! ## Message framing (src/ble.py) -/

/-- The end-of-transmission delimiter byte 0x04. -/
def EOT : Char := Char.ofNat 4

/-- `BLE.send` from src/ble.py, lines 230-250: appends exactly one EOT to
the outgoing message.  (Connection lookup and the transport write are
outside the model; this is the byte stream handed to the transport.) -/
def ble_send (message : List Char) : List Char := message ++ [EOT]

/-- `BLE.receive` from src/ble.py, lines 252-296: buffers successive
transport reads until an EOT appears in the buffer, then returns
everything before the first EOT.  `chunks` is the sequence of non-empty
reads the transport delivers; exhausting it without an EOT models the
timeout (`None`). -/
def ble_receive : List (List Char) → List Char → Option (List Char)
  | [], _ => none
  | c :: rest, buffer =>
    let buf := buffer ++ c
    if EOT ∈ buf then
      some (buf.takeWhile (fun ch => ch != EOT))
    else
      ble_receive rest buf

/-! ## Synchronization protocol (src/sync.py, core/types.py)

Python string primitives used by sync.py are modelled over `List Char`:
`str.strip()`, `str.split(sep, maxsplit)`, `str.split(sep)`, `str(int)`
and `int(str)`. -/

/-- Python whitespace characters recognised by `str.strip()` and
`int()`: space, tab, newline, carriage return, vertical tab, form
feed. -/
def isPySpace (c : Char) : Bool :=
  c = ' ' || c = '\t' || c = '\n' || c = '\r' || c = Char.ofNat 11 || c = Char.ofNat 12

/-- Python `str.strip()` with no argument: drop leading and trailing
whitespace. -/
def pyStrip (s : List Char) : List Char :=
  ((s.dropWhile isPySpace).reverse.dropWhile isPySpace).reverse

/-- Decimal digit character for a value below ten. -/
def digitChar (d : Nat) : Char := Char.ofNat (48 + d)

/-- Fuel-driven most-significant-first decimal rendering of a natural
number; `fuel ≥ n` suffices. -/
def natStrGo : Nat → Nat → List Char
  | 0, _ => []
  | fuel + 1, n => if n = 0 then [] else natStrGo fuel (n / 10) ++ [digitChar (n % 10)]

/-- Python `str(n)` for a non-negative integer. -/
def natStr (n : Nat) : List Char :=
  if n = 0 then ['0'] else natStrGo n n

/-- Python `str(i)` for an arbitrary integer. -/
def intStr : ℤ → List Char
  | Int.ofNat n => natStr n
  | Int.negSucc m => '-' :: natStr (m + 1)

/-- Numeric value of a decimal digit character. -/
def digitVal (c : Char) : Nat := c.toNat - 48

/-- Digit-sequence part of Python `int(str)` after the first digit:
digits, optionally separated by single underscores. -/
def pyDigits : Nat → List Char → Option Nat
  | acc, [] => some acc
  | acc, c :: rest =>
    if c.isDigit then pyDigits (acc * 10 + digitVal c) rest
    else if c = '_' then
      match rest with
      | [] => none
      | d :: rest2 => if d.isDigit then pyDigits (acc * 10 + digitVal d) rest2 else none
    else none

/-- Unsigned-number part of Python `int(str)`: at least one digit, then
`pyDigits`. -/
def pyNat? : List Char → Option Nat
  | [] => none
  | c :: rest => if c.isDigit then pyDigits (digitVal c) rest else none

/-- Sign handling of Python `int(str)` after whitespace is stripped. -/
def pyIntCore : List Char → Option ℤ
  | [] => none
  | c :: rest =>
    if c = '+' then (pyNat? rest).map (fun n => (n : ℤ))
    else if c = '-' then (pyNat? rest).map (fun n => -(n : ℤ))
    else (pyNat? (c :: rest)).map (fun n => (n : ℤ))

/-- Python `int(str)`: surrounding whitespace is ignored, an optional
sign precedes the digits, `None` models the `ValueError`. -/
def pyInt? (s : List Char) : Option ℤ := pyIntCore (pyStrip s)

/-- Split off everything before the first occurrence of `sep`, returning
it with the remainder, or `none` when `sep` does not occur. -/
def splitFirst (sep : Char) : List Char → Option (List Char × List Char)
  | [] => none
  | c :: rest =>
    if c = sep then some ([], rest)
    else (splitFirst sep rest).map (fun p => (c :: p.1, p.2))

/-- Python `str.split(sep, maxsplit)` for a single-character separator:
at most `maxsplit` splits, leftmost first. -/
def splitSepMax (sep : Char) : Nat → List Char → List (List Char)
  | 0, s => [s]
  | k + 1, s =>
    match splitFirst sep s with
    | none => [s]
    | some (a, rest) => a :: splitSepMax sep k rest

/-- The `SyncCommandType` enum from core/types.py (six command
tokens). -/
inductive SyncCommandType
  | SYNC_ADJ
  | SYNC_ADJ_START
  | EXECUTE_BUZZ
  | BUZZ_COMPLETE
  | FIRST_SYNC
  | ACK_SYNC_ADJ
deriving DecidableEq

/-- The `.value` string of each `SyncCommandType` instance. -/
def SyncCommandType.value : SyncCommandType → List Char
  | SYNC_ADJ => "SYNC_ADJ".toList
  | SYNC_ADJ_START => "SYNC_ADJ_START".toList
  | EXECUTE_BUZZ => "EXECUTE_BUZZ".toList
  | BUZZ_COMPLETE => "BUZZ_COMPLETE".toList
  | FIRST_SYNC => "FIRST_SYNC".toList
  | ACK_SYNC_ADJ => "ACK_SYNC_ADJ".toList

/-- `SyncCommandType(string)`: enum lookup by value; an unknown value is
a `ValueError` (`none`). -/
def SyncCommandType.ofValue (s : List Char) : Option SyncCommandType :=
  if s = "SYNC_ADJ".toList then some SYNC_ADJ
  else if s = "SYNC_ADJ_START".toList then some SYNC_ADJ_START
  else if s = "EXECUTE_BUZZ".toList then some EXECUTE_BUZZ
  else if s = "BUZZ_COMPLETE".toList then some BUZZ_COMPLETE
  else if s = "FIRST_SYNC".toList then some FIRST_SYNC
  else if s = "ACK_SYNC_ADJ".toList then some ACK_SYNC_ADJ
  else none

/-- A Python value stored in a command's data dict: sync.py only ever
produces integers and strings there (`int(value)` coercion on receive,
`str(value)` on send). -/
inductive PyVal
  | intVal (i : ℤ)
  | strVal (s : List Char)
deriving DecidableEq

/-- Python `str(value)` for a data value. -/
def PyVal.str : PyVal → List Char
  | intVal i => intStr i
  | strVal s => s

/-- `SyncCommand` from src/sync.py, lines 85-99.  The data dict is an
insertion-ordered association list, as in Python. -/
structure SyncCommand where
  sequence_id : ℤ
  timestamp : ℤ
  command_type : SyncCommandType
  data : List (List Char × PyVal)
deriving DecidableEq

/-- `_serialize_data` from src/sync.py, lines 24-44 (nonempty case):
`key1|value1|key2|value2|...`. -/
def serialize_data (data : List (List Char × PyVal)) : List Char :=
  List.intercalate ['|'] (data.flatMap (fun kv => [kv.1, kv.2.str]))

/-- `SyncCommand.serialize` from src/sync.py, lines 101-123:
`COMMAND_TYPE:sequence_id:timestamp[:data]` plus a trailing newline;
the data field is omitted when the dict is empty (falsy). -/
def serialize (c : SyncCommand) : List Char :=
  let parts := [c.command_type.value, intStr c.sequence_id, intStr c.timestamp]
  let parts2 := if c.data = [] then parts else parts ++ [serialize_data c.data]
  List.intercalate [':'] parts2 ++ ['\n']

/-- Python `data[key] = value` on an insertion-ordered dict: overwrite in
place when the key exists, append otherwise. -/
def dict_set (d : List (List Char × PyVal)) (k : List Char) (v : PyVal) :
    List (List Char × PyVal) :=
  if d.any (fun kv => kv.1 = k) then
    d.map (fun kv => if kv.1 = k then (k, v) else kv)
  else
    d ++ [(k, v)]

/-- The `int(value)`-with-fallback coercion in `_deserialize_data`. -/
def coerce_value (v : List Char) : PyVal :=
  match pyInt? v with
  | some n => PyVal.intVal n
  | none => PyVal.strVal v

/-- Consecutive pairs of the token list, as the `range(0, len, 2)` loop
reads them. -/
def pairUp : List (List Char) → List (List Char × List Char)
  | k :: v :: rest => (k, v) :: pairUp rest
  | _ => []

/-- `_deserialize_data` from src/sync.py, lines 47-82: empty input gives
an empty dict; otherwise split on pipes, an odd token count is a
`ValueError`, and values that parse as integers are coerced. -/
def deserialize_data (data_str : List Char) :
    Except (List Char) (List (List Char × PyVal)) :=
  if data_str = [] then Except.ok []
  else
    let parts := data_str.splitOn '|'
    if parts.length % 2 ≠ 0 then Except.error "Invalid data format: odd number of parts".toList
    else Except.ok
      ((pairUp parts).foldl (fun d kv => dict_set d kv.1 (coerce_value kv.2)) [])

/-- `SyncCommand.deserialize` from src/sync.py, lines 125-162: strip,
split on at most three colons, require at least three fields, look up
the command type, parse the two integers, then parse the optional data
field.  Every failure surfaces as a `ValueError` (`Except.error`). -/
def deserialize (input : List Char) : Except (List Char) SyncCommand :=
  let message := pyStrip input
  let parts := splitSepMax ':' 3 message
  if parts.length < 3 then Except.error "Invalid command format".toList
  else
    match SyncCommandType.ofValue (parts.getD 0 []) with
    | none => Except.error "unknown command type".toList
    | some ct =>
      match pyInt? (parts.getD 1 []), pyInt? (parts.getD 2 []) with
      | some sid, some ts =>
        if parts.length = 4 then
          match deserialize_data (parts.getD 3 []) with
          | Except.ok d => Except.ok ⟨sid, ts, ct, d⟩
          | Except.error e => Except.error e
        else
          Except.ok ⟨sid, ts, ct, []⟩
      | _, _ => Except.error "invalid literal for int".toList

/-! ## Theorems: state machine claims -/

/-- C3: for every (current_state, trigger) pair absent from the fixed
transition table — CONNECTED when not IDLE, START_SESSION outside
{IDLE, READY}, PAUSE_SESSION when not RUNNING, RESUME_SESSION when not
PAUSED, STOP_SESSION outside {RUNNING, PAUSED}, STOPPED when not
STOPPING, or an unknown trigger string — `transition` returns `True` and
the current state is unchanged afterwards. -/
theorem transition_noop_outside_table (s : TherapyState) (trigger : String)
    (h : inTransitionTable s trigger = false) :
    transition s trigger = (true, s) := by
  simp only [inTransitionTable, Bool.or_eq_false_iff, Bool.and_eq_false_iff,
    beq_eq_false_iff_ne, ne_eq] at h
  obtain ⟨⟨⟨⟨⟨⟨⟨⟨h1, h2⟩, h3⟩, h4⟩, h5⟩, h6⟩, hd⟩, he⟩, hes⟩ := h
  unfold transition determine_next_state
  split_ifs with c1 c2 c3 c4 c5 c6 c7 c8 c9 c10 c11 c12 <;> simp_all

/-- Witness for C3 at a concrete inapplicable pair: trigger CONNECTED in
state RUNNING is absent from the table and is a successful no-op. -/
theorem transition_noop_outside_table_witness :
    inTransitionTable TherapyState.RUNNING "CONNECTED" = false ∧
      transition TherapyState.RUNNING "CONNECTED" = (true, TherapyState.RUNNING) :=
  ⟨by decide, transition_noop_outside_table TherapyState.RUNNING "CONNECTED" (by decide)⟩

/-- C10: `transition` returns `True` for every trigger in every state,
including triggers not in the table and arbitrary unknown trigger
strings: despite the documented `bool` result, no call ever returns
`False`. -/
theorem transition_always_true (s : TherapyState) (trigger : String) :
    (transition s trigger).1 = true := by
  unfold transition
  dsimp only
  split <;> rfl

/-! ## Theorems: framing claims -/

lemma takeWhile_ne_eot_append (m : List Char) (hm : EOT ∉ m) :
    (m ++ [EOT]).takeWhile (fun ch => ch != EOT) = m := by
  induction m with
  | nil => simp
  | cons a t ih =>
    have ha : (a != EOT) = true := by
      simp only [bne_iff_ne, ne_eq]
      intro h
      exact hm (h ▸ List.mem_cons_self a t)
    have ht : EOT ∉ t := fun h => hm (List.mem_cons_of_mem a h)
    simp [List.takeWhile_cons, ha, ih ht]

/-- C9: for every message M containing no EOT byte, feeding the receiver
exactly the bytes the sender produced for M (M plus the one appended
EOT) yields exactly M back, with no trailing EOT. -/
theorem framing_roundtrip (m : List Char) (hm : EOT ∉ m) :
    ble_receive [ble_send m] [] = some m := by
  unfold ble_send ble_receive
  have hmem : EOT ∈ [] ++ (m ++ [EOT]) := by simp
  rw [if_pos hmem]
  simp [takeWhile_ne_eot_append m hm]

/-- Witness for C9 at the concrete message "EXECUTE_BUZZ:42". -/
theorem framing_roundtrip_witness :
    EOT ∉ "EXECUTE_BUZZ:42".toList ∧
      ble_receive [ble_send "EXECUTE_BUZZ:42".toList] [] = some "EXECUTE_BUZZ:42".toList :=
  ⟨by decide, framing_roundtrip "EXECUTE_BUZZ:42".toList (by decide)⟩

/-! ## Supporting lemmas for the serialization claims -/

instance {ε α : Type _} [DecidableEq ε] [DecidableEq α] : DecidableEq (Except ε α) :=
  fun x y =>
  match x, y with
  | Except.ok a, Except.ok b =>
    if h : a = b then Decidable.isTrue (congrArg Except.ok h)
    else Decidable.isFalse (fun hh => h (Except.ok.inj hh))
  | Except.error a, Except.error b =>
    if h : a = b then Decidable.isTrue (congrArg Except.error h)
    else Decidable.isFalse (fun hh => h (Except.error.inj hh))
  | Except.ok _, Except.error _ => Decidable.isFalse (fun hh => Except.noConfusion hh)
  | Except.error _, Except.ok _ => Decidable.isFalse (fun hh => Except.noConfusion hh)

lemma mem_of_getLast?_eq {l : List Char} {c : Char} (h : l.getLast? = some c) : c ∈ l := by
  obtain ⟨hl, heq⟩ := List.mem_getLast?_eq_getLast (show c ∈ l.getLast? from h ▸ rfl)
  rw [heq]
  exact List.getLast_mem hl

lemma dropWhile_all_false {p : Char → Bool} {s : List Char}
    (h : ∀ c ∈ s, p c = false) : s.dropWhile p = s := by
  cases s with
  | nil => rfl
  | cons a t =>
    exact List.dropWhile_cons_of_neg (by simp [h a (List.mem_cons_self a t)])

lemma pyStrip_eq_self {s : List Char} (h : ∀ c ∈ s, isPySpace c = false) :
    pyStrip s = s := by
  unfold pyStrip
  rw [dropWhile_all_false h,
    dropWhile_all_false (fun c hc => h c (List.mem_reverse.mp hc)),
    List.reverse_reverse]

lemma pyStrip_append_newline (s : List Char)
    (h1 : ∀ c, s.head? = some c → isPySpace c = false)
    (h2 : ∀ c, s.getLast? = some c → isPySpace c = false) :
    pyStrip (s ++ ['\n']) = s := by
  cases s with
  | nil => decide
  | cons a t =>
    have ha : isPySpace a = false := h1 a rfl
    have hA : List.dropWhile isPySpace ((a :: t) ++ ['\n']) = (a :: t) ++ ['\n'] := by
      rw [List.cons_append]
      exact List.dropWhile_cons_of_neg (by simp [ha])
    have hB : ((a :: t) ++ ['\n']).reverse = '\n' :: (a :: t).reverse := by
      rw [List.reverse_append]
      rfl
    cases hrev : (a :: t).reverse with
    | nil => simp at hrev
    | cons b u =>
      have hb : isPySpace b = false := by
        apply h2
        rw [← List.head?_reverse, hrev]
        rfl
      unfold pyStrip
      rw [hA, hB, hrev, List.dropWhile_cons_of_pos (by decide),
        List.dropWhile_cons_of_neg (by simp [hb]), ← hrev, List.reverse_reverse]

lemma digitChar_isDigit {d : Nat} (h : d < 10) : (digitChar d).isDigit = true := by
  interval_cases d <;> decide

lemma digitVal_digitChar {d : Nat} (h : d < 10) : digitVal (digitChar d) = d := by
  interval_cases d <;> decide

lemma isDigit_not_special {c : Char} (h : c.isDigit = true) :
    isPySpace c = false ∧ c ≠ ':' ∧ c ≠ '|' ∧ c ≠ '+' ∧ c ≠ '-' := by
  refine ⟨?_, ?_, ?_, ?_, ?_⟩
  · by_contra hsp
    rw [Bool.not_eq_false] at hsp
    simp only [isPySpace, Bool.or_eq_true, decide_eq_true_eq] at hsp
    rcases hsp with ((((h1 | h1) | h1) | h1) | h1) | h1 <;> subst h1 <;> simp at h
  all_goals (intro heq; subst heq; simp at h)

lemma natStrGo_eq : ∀ (fuel n : Nat), n ≤ fuel →
    natStrGo fuel n = ((Nat.digits 10 n).reverse.map digitChar)
  | 0, n, h => by
    have : n = 0 := Nat.le_zero.mp h
    subst this
    simp [natStrGo]
  | fuel + 1, n, h => by
    by_cases hn : n = 0
    · subst hn
      simp [natStrGo]
    · have hpos : 0 < n := Nat.pos_of_ne_zero hn
      have hdiv : n / 10 ≤ fuel :=
        Nat.lt_succ_iff.mp (Nat.lt_of_lt_of_le (Nat.div_lt_self hpos (by norm_num)) h)
      rw [show natStrGo (fuel + 1) n
          = natStrGo fuel (n / 10) ++ [digitChar (n % 10)] from by simp [natStrGo, hn]]
      rw [natStrGo_eq fuel (n / 10) hdiv]
      rw [Nat.digits_def' (by norm_num : (1 : ℕ) < 10) hpos]
      simp [List.reverse_cons]

lemma natStr_eq (n : Nat) :
    natStr n = if n = 0 then ['0'] else ((Nat.digits 10 n).reverse.map digitChar) := by
  unfold natStr
  split_ifs with h
  · rfl
  · exact natStrGo_eq n n le_rfl

lemma natStr_mem_isDigit {n : Nat} {c : Char} (h : c ∈ natStr n) : c.isDigit = true := by
  rw [natStr_eq] at h
  split_ifs at h with hn
  · simp at h
    subst h
    decide
  · simp only [List.mem_map, List.mem_reverse] at h
    obtain ⟨d, hd, rfl⟩ := h
    exact digitChar_isDigit (Nat.digits_lt_base (by norm_num) hd)

lemma natStr_ne_nil (n : Nat) : natStr n ≠ [] := by
  rw [natStr_eq]
  split_ifs with h
  · simp
  · simp [Nat.digits_ne_nil_iff_ne_zero.mpr h]

lemma pyDigits_map (ds : List Nat) (acc : Nat) (h : ∀ d ∈ ds, d < 10) :
    pyDigits acc (ds.map digitChar) = some (ds.foldl (fun a d => a * 10 + d) acc) := by
  induction ds generalizing acc with
  | nil => rfl
  | cons d tl ih =>
    have hd : d < 10 := h d (List.mem_cons_self d tl)
    rw [List.map_cons,
      show pyDigits acc (digitChar d :: tl.map digitChar)
        = pyDigits (acc * 10 + digitVal (digitChar d)) (tl.map digitChar) from by
          rw [pyDigits.eq_def]
          simp [digitChar_isDigit hd],
      digitVal_digitChar hd, ih _ (fun e he => h e (List.mem_cons_of_mem d he)),
      List.foldl_cons]

lemma foldl_reverse_ofDigits (L : List Nat) :
    L.reverse.foldl (fun a d => a * 10 + d) 0 = Nat.ofDigits 10 L := by
  induction L with
  | nil => simp [Nat.ofDigits]
  | cons d tl ih =>
    rw [List.reverse_cons, List.foldl_append, ih, Nat.ofDigits_cons]
    simp [Nat.cast_id]
    ring

lemma pyNat?_natStr (n : Nat) : pyNat? (natStr n) = some n := by
  by_cases hn : n = 0
  · subst hn
    rfl
  · rw [natStr_eq, if_neg hn]
    have hlt : ∀ x ∈ (Nat.digits 10 n).reverse, x < 10 := fun x hx =>
      Nat.digits_lt_base (by norm_num) (List.mem_reverse.mp hx)
    cases hdt : (Nat.digits 10 n).reverse with
    | nil =>
      rw [List.reverse_eq_nil_iff] at hdt
      exact absurd hdt (Nat.digits_ne_nil_iff_ne_zero.mpr hn)
    | cons d tl =>
      have hd : d < 10 := hlt d (hdt ▸ List.mem_cons_self d tl)
      rw [List.map_cons,
        show pyNat? (digitChar d :: tl.map digitChar)
          = pyDigits (digitVal (digitChar d)) (tl.map digitChar) from by
            simp [pyNat?, digitChar_isDigit hd],
        digitVal_digitChar hd,
        pyDigits_map tl d (fun e he => hlt e (hdt ▸ List.mem_cons_of_mem d he))]
      congr 1
      have h0 : tl.foldl (fun a x => a * 10 + x) d
          = (d :: tl).foldl (fun a x => a * 10 + x) 0 := by
        simp [List.foldl_cons]
      rw [h0, ← hdt, foldl_reverse_ofDigits, Nat.ofDigits_digits]

lemma intStr_mem {i : ℤ} {c : Char} (h : c ∈ intStr i) : c.isDigit = true ∨ c = '-' := by
  cases i with
  | ofNat n => exact Or.inl (natStr_mem_isDigit h)
  | negSucc m =>
    simp only [intStr, List.mem_cons] at h
    rcases h with h | h
    · exact Or.inr h
    · exact Or.inl (natStr_mem_isDigit h)

lemma intStr_not_special {i : ℤ} {c : Char} (h : c ∈ intStr i) :
    isPySpace c = false ∧ c ≠ ':' ∧ c ≠ '|' := by
  rcases intStr_mem h with hd | hm
  · exact ⟨(isDigit_not_special hd).1, (isDigit_not_special hd).2.1,
      (isDigit_not_special hd).2.2.1⟩
  · subst hm
    refine ⟨by decide, by decide, by decide⟩

lemma intStr_ne_nil (i : ℤ) : intStr i ≠ [] := by
  cases i with
  | ofNat n => exact natStr_ne_nil n
  | negSucc m => simp [intStr]

lemma pyInt?_intStr (i : ℤ) : pyInt? (intStr i) = some i := by
  have hstrip : pyStrip (intStr i) = intStr i :=
    pyStrip_eq_self (fun c hc => (intStr_not_special hc).1)
  unfold pyInt?
  rw [hstrip]
  cases i with
  | ofNat n =>
    cases hns : natStr n with
    | nil => exact absurd hns (natStr_ne_nil n)
    | cons c t =>
      have hc : c.isDigit = true := natStr_mem_isDigit (hns ▸ List.mem_cons_self c t)
      rw [show intStr (Int.ofNat n) = c :: t from hns]
      rw [show pyIntCore (c :: t) = (pyNat? (c :: t)).map (fun n => (n : ℤ)) from by
        simp [pyIntCore, (isDigit_not_special hc).2.2.2.1, (isDigit_not_special hc).2.2.2.2]]
      rw [← hns, pyNat?_natStr]
      rfl
  | negSucc m =>
    rw [show intStr (Int.negSucc m) = '-' :: natStr (m + 1) from rfl]
    rw [show pyIntCore ('-' :: natStr (m + 1))
        = (pyNat? (natStr (m + 1))).map (fun n => -(n : ℤ)) from by simp [pyIntCore]]
    rw [pyNat?_natStr]
    simp [Int.negSucc_eq]

lemma splitFirst_of_not_mem {sep : Char} : ∀ {s : List Char}, sep ∉ s →
    splitFirst sep s = none
  | [], _ => rfl
  | c :: t, h => by
    have hc : c ≠ sep := fun he => h (he ▸ List.mem_cons_self c t)
    have ht : sep ∉ t := fun he => h (List.mem_cons_of_mem c he)
    simp [splitFirst, hc, splitFirst_of_not_mem ht]

lemma splitFirst_append {sep : Char} : ∀ {a : List Char} (r : List Char), sep ∉ a →
    splitFirst sep (a ++ sep :: r) = some (a, r)
  | [], r, _ => by simp [splitFirst]
  | c :: t, r, h => by
    have hc : c ≠ sep := fun he => h (he ▸ List.mem_cons_self c t)
    have ht : sep ∉ t := fun he => h (List.mem_cons_of_mem c he)
    simp [splitFirst, hc, splitFirst_append r ht]

lemma splitSepMax_no_sep {sep : Char} (k : Nat) {s : List Char} (h : sep ∉ s) :
    splitSepMax sep k s = [s] := by
  cases k with
  | zero => rfl
  | succ k => simp [splitSepMax, splitFirst_of_not_mem h]

lemma splitSepMax_cons {sep : Char} (k : Nat) {a : List Char} (r : List Char)
    (h : sep ∉ a) :
    splitSepMax sep (k + 1) (a ++ sep :: r) = a :: splitSepMax sep k r := by
  simp [splitSepMax, splitFirst_append r h]

lemma intercalate_cons₂ (x : Char) (p q : List Char) (r : List (List Char)) :
    List.intercalate [x] (p :: q :: r) = p ++ x :: List.intercalate [x] (q :: r) := by
  simp [List.intercalate, List.intersperse]

lemma intercalate_single (x : Char) (p : List Char) :
    List.intercalate [x] [p] = p := by
  simp [List.intercalate, List.intersperse]

lemma intercalate_three (x : Char) (a b c : List Char) :
    List.intercalate [x] [a, b, c] = a ++ x :: (b ++ x :: c) := by
  simp [List.intercalate, List.intersperse]

lemma intercalate_four (x : Char) (a b c d : List Char) :
    List.intercalate [x] [a, b, c, d] = a ++ x :: (b ++ x :: (c ++ x :: d)) := by
  simp [List.intercalate, List.intersperse]

lemma mem_intercalate {x c : Char} : ∀ {ps : List (List Char)},
    c ∈ List.intercalate [x] ps → c = x ∨ ∃ p ∈ ps, c ∈ p
  | [], h => by simp [List.intercalate, List.intersperse] at h
  | [p], h => by
    rw [intercalate_single] at h
    exact Or.inr ⟨p, List.mem_cons_self p [], h⟩
  | p :: q :: r, h => by
    rw [intercalate_cons₂] at h
    rcases List.mem_append.mp h with hp | hrest
    · exact Or.inr ⟨p, List.mem_cons_self _ _, hp⟩
    · rcases List.mem_cons.mp hrest with hx | htail
      · exact Or.inl hx
      · rcases mem_intercalate htail with hx | ⟨p2, hp2, hc2⟩
        · exact Or.inl hx
        · exact Or.inr ⟨p2, List.mem_cons_of_mem p hp2, hc2⟩

lemma getLast?_intercalate {x c : Char} : ∀ {ps : List (List Char)}, ps ≠ [] →
    (List.intercalate [x] ps).getLast? = some c →
    c = x ∨ ∃ p, ps.getLast? = some p ∧ p.getLast? = some c
  | [], h, _ => absurd rfl h
  | [p], _, hl => by
    rw [intercalate_single] at hl
    exact Or.inr ⟨p, rfl, hl⟩
  | p :: q :: r, _, hl => by
    rw [intercalate_cons₂, List.getLast?_append_of_ne_nil p (by simp)] at hl
    cases hqr : List.intercalate [x] (q :: r) with
    | nil =>
      rw [hqr] at hl
      simp at hl
      exact Or.inl hl.symm
    | cons e u =>
      rw [hqr, List.getLast?_cons_cons, ← hqr] at hl
      rcases @getLast?_intercalate x c (q :: r) (by simp) hl with h2 | ⟨p2, hp2, hc2⟩
      · exact Or.inl h2
      · exact Or.inr ⟨p2, by rw [List.getLast?_cons_cons]; exact hp2, hc2⟩

lemma value_ne_nil (ct : SyncCommandType) : ct.value ≠ [] := by
  cases ct <;> decide

lemma value_chars (ct : SyncCommandType) :
    ∀ c ∈ ct.value, isPySpace c = false ∧ c ≠ ':' := by
  cases ct <;> decide

lemma ofValue_value (ct : SyncCommandType) :
    SyncCommandType.ofValue ct.value = some ct := by
  cases ct <;> decide

lemma getLast?_append_cons_ne_nil {a r : List Char} {x : Char} (hr : r ≠ []) :
    (a ++ x :: r).getLast? = r.getLast? := by
  rw [List.getLast?_append_of_ne_nil _ (by simp),
    show x :: r = [x] ++ r from rfl, List.getLast?_append_of_ne_nil _ hr]

lemma dataParts_ne_nil {data : List (List Char × PyVal)} (h : data ≠ []) :
    data.flatMap (fun kv => [kv.1, kv.2.str]) ≠ [] := by
  cases data with
  | nil => exact absurd rfl h
  | cons kv tl => simp

lemma dataParts_length (data : List (List Char × PyVal)) :
    (data.flatMap (fun kv => [kv.1, kv.2.str])).length = 2 * data.length := by
  induction data with
  | nil => rfl
  | cons kv tl ih =>
    simp only [List.flatMap_cons, List.length_append, List.length_cons, ih,
      List.length_nil]
    omega

lemma dataParts_getLast? {data : List (List Char × PyVal)} (h : data ≠ []) :
    ∃ kv, data.getLast? = some kv ∧
      (data.flatMap (fun kv => [kv.1, kv.2.str])).getLast? = some kv.2.str := by
  induction data with
  | nil => exact absurd rfl h
  | cons kv tl ih =>
    cases htl : tl with
    | nil =>
      subst htl
      exact ⟨kv, rfl, rfl⟩
    | cons kv2 tl2 =>
      subst htl
      obtain ⟨kv3, h1, h2⟩ := ih (by simp)
      refine ⟨kv3, ?_, ?_⟩
      · rw [List.getLast?_cons_cons]
        exact h1
      · rw [show (kv :: kv2 :: tl2).flatMap (fun kv => [kv.1, kv.2.str])
            = [kv.1, kv.2.str] ++ (kv2 :: tl2).flatMap (fun kv => [kv.1, kv.2.str]) from by
              simp,
          List.getLast?_append_of_ne_nil _ (dataParts_ne_nil (by simp))]
        exact h2

lemma mem_dataParts {data : List (List Char × PyVal)} {p : List Char}
    (h : p ∈ data.flatMap (fun kv => [kv.1, kv.2.str])) :
    ∃ kv ∈ data, p = kv.1 ∨ p = kv.2.str := by
  rw [List.mem_flatMap] at h
  obtain ⟨kv, hkv, hp⟩ := h
  simp only [List.mem_cons, List.mem_singleton, List.not_mem_nil, or_false] at hp
  exact ⟨kv, hkv, hp⟩

lemma pairUp_flatMap (data : List (List Char × PyVal)) :
    pairUp (data.flatMap (fun kv => [kv.1, kv.2.str]))
      = data.map (fun kv => (kv.1, kv.2.str)) := by
  induction data with
  | nil => rfl
  | cons kv tl ih =>
    rw [List.flatMap_cons,
      show ([kv.1, kv.2.str] ++ tl.flatMap fun kv => [kv.1, kv.2.str])
        = kv.1 :: kv.2.str :: tl.flatMap (fun kv => [kv.1, kv.2.str]) from rfl,
      show pairUp (kv.1 :: kv.2.str :: tl.flatMap fun kv => [kv.1, kv.2.str])
        = (kv.1, kv.2.str) :: pairUp (tl.flatMap fun kv => [kv.1, kv.2.str]) from rfl,
      ih, List.map_cons]

lemma dict_set_append {acc : List (List Char × PyVal)} {k : List Char} {v : PyVal}
    (h : k ∉ acc.map Prod.fst) : dict_set acc k v = acc ++ [(k, v)] := by
  have hany : acc.any (fun kv => kv.1 = k) = false := by
    rw [Bool.eq_false_iff]
    intro hc
    rw [List.any_eq_true] at hc
    obtain ⟨kv, hkv, he⟩ := hc
    rw [decide_eq_true_eq] at he
    exact h (List.mem_map.mpr ⟨kv, hkv, he⟩)
  unfold dict_set
  rw [if_neg (by simp [hany])]

lemma foldl_dict_set (l : List (List Char × PyVal)) :
    ∀ acc : List (List Char × PyVal), ((acc ++ l).map Prod.fst).Nodup →
    l.foldl (fun d kv => dict_set d kv.1 kv.2) acc = acc ++ l := by
  induction l with
  | nil =>
    intro acc _
    simp
  | cons kv tl ih =>
    intro acc h
    have hk : kv.1 ∉ acc.map Prod.fst := by
      rw [List.map_append] at h
      have hdisj := (List.nodup_append.mp h).2.2
      intro hmem
      exact hdisj hmem (List.mem_map.mpr ⟨kv, List.mem_cons_self kv tl, rfl⟩)
    rw [List.foldl_cons,
      show dict_set acc kv.1 kv.2 = acc ++ [kv] from by rw [dict_set_append hk],
      ih (acc ++ [kv]) (by simpa using h)]
    simp

/-! ## Theorems: serialization claims -/

/-- Decidable form of "the serialized data payload does not end in
whitespace": the string of the final data value (when there is one) has
no trailing Python-whitespace character. -/
def lastValOk (data : List (List Char × PyVal)) : Bool :=
  ((data.getLast?).map (fun kv =>
    ((kv.2.str.getLast?).map (fun c => !(isPySpace c))).getD true)).getD true

/-- C5 (amended): for every `SyncCommand` whose data keys and values,
written as strings, contain no ':' or '|' characters, whose keys are
distinct, and whose final data value does not end in a whitespace
character, `deserialize (serialize x)` reproduces `x`'s command_type,
sequence_id, timestamp and data map, except that any data value whose
string form parses as a Python integer comes back as that integer
(`coerce_value`). -/
theorem sync_roundtrip (x : SyncCommand)
    (hk : ∀ kv ∈ x.data, ':' ∉ kv.1 ∧ '|' ∉ kv.1 ∧ ':' ∉ kv.2.str ∧ '|' ∉ kv.2.str)
    (hnd : (x.data.map Prod.fst).Nodup)
    (hws : lastValOk x.data = true) :
    deserialize (serialize x)
      = Except.ok ⟨x.sequence_id, x.timestamp, x.command_type,
          x.data.map (fun kv => (kv.1, coerce_value kv.2.str))⟩ := by
  have hcolon_ctv : ':' ∉ x.command_type.value :=
    fun hm => (value_chars _ _ hm).2 rfl
  have hcolon_seq : ':' ∉ intStr x.sequence_id :=
    fun hm => (intStr_not_special hm).2.1 rfl
  have hcolon_ts : ':' ∉ intStr x.timestamp :=
    fun hm => (intStr_not_special hm).2.1 rfl
  have hhead : ∀ (r : List Char) (c : Char),
      (x.command_type.value ++ r).head? = some c → isPySpace c = false := by
    intro r c hc
    rw [List.head?_append_of_ne_nil _ (value_ne_nil _)] at hc
    exact (value_chars _ c (List.mem_of_mem_head? hc)).1
  by_cases hdata : x.data = []
  · have hser : serialize x
        = (x.command_type.value
            ++ ':' :: (intStr x.sequence_id ++ ':' :: intStr x.timestamp)) ++ ['\n'] := by
      simp only [serialize, if_pos hdata]
      rw [intercalate_three]
    have hlast : ∀ c : Char,
        (x.command_type.value
          ++ ':' :: (intStr x.sequence_id ++ ':' :: intStr x.timestamp)).getLast?
          = some c → isPySpace c = false := by
      intro c hc
      rw [getLast?_append_cons_ne_nil (by simp), getLast?_append_cons_ne_nil
        (intStr_ne_nil _)] at hc
      exact (intStr_not_special (mem_of_getLast?_eq hc)).1
    have hsplit : splitSepMax ':' 3
        (x.command_type.value
          ++ ':' :: (intStr x.sequence_id ++ ':' :: intStr x.timestamp))
        = [x.command_type.value, intStr x.sequence_id, intStr x.timestamp] := by
      rw [splitSepMax_cons 2 _ hcolon_ctv, splitSepMax_cons 1 _ hcolon_seq,
        splitSepMax_no_sep 1 hcolon_ts]
    simp only [deserialize]
    rw [hser, pyStrip_append_newline _ (hhead _) hlast, hsplit]
    simp [ofValue_value, pyInt?_intStr, hdata]
  · have hparts_ne : x.data.flatMap (fun kv => [kv.1, kv.2.str]) ≠ [] :=
      dataParts_ne_nil hdata
    have hpipe_parts : ∀ l ∈ x.data.flatMap (fun kv => [kv.1, kv.2.str]), '|' ∉ l := by
      intro l hl hmem
      obtain ⟨kv, hkv, hor⟩ := mem_dataParts hl
      rcases hor with rfl | rfl
      · exact (hk kv hkv).2.1 hmem
      · exact (hk kv hkv).2.2.2 hmem
    have hcolon_data : ':' ∉ serialize_data x.data := by
      intro hmem
      unfold serialize_data at hmem
      rcases mem_intercalate hmem with he | ⟨p, hp, hcp⟩
      · exact absurd he (by decide)
      · obtain ⟨kv, hkv, hor⟩ := mem_dataParts hp
        rcases hor with rfl | rfl
        · exact (hk kv hkv).1 hcp
        · exact (hk kv hkv).2.2.1 hcp
    have hdataStr_ne : serialize_data x.data ≠ [] := by
      unfold serialize_data
      cases hdp : x.data.flatMap (fun kv => [kv.1, kv.2.str]) with
      | nil => exact absurd hdp hparts_ne
      | cons p tl =>
        cases tl with
        | nil =>
          exfalso
          have hlen := dataParts_length x.data
          rw [hdp] at hlen
          simp only [List.length_cons, List.length_nil] at hlen
          have hpos : 0 < x.data.length := List.length_pos.mpr hdata
          omega
        | cons q r =>
          rw [intercalate_cons₂]
          simp
    have hser : serialize x
        = (x.command_type.value
            ++ ':' :: (intStr x.sequence_id
              ++ ':' :: (intStr x.timestamp ++ ':' :: serialize_data x.data))) ++ ['\n'] := by
      simp only [serialize, if_neg hdata]
      rw [show [x.command_type.value, intStr x.sequence_id, intStr x.timestamp]
            ++ [serialize_data x.data]
          = [x.command_type.value, intStr x.sequence_id, intStr x.timestamp,
              serialize_data x.data] from rfl]
      rw [intercalate_four]
    have hlast : ∀ c : Char,
        (x.command_type.value
          ++ ':' :: (intStr x.sequence_id
            ++ ':' :: (intStr x.timestamp ++ ':' :: serialize_data x.data))).getLast?
          = some c → isPySpace c = false := by
      intro c hc
      rw [getLast?_append_cons_ne_nil (by simp), getLast?_append_cons_ne_nil (by simp),
        getLast?_append_cons_ne_nil hdataStr_ne] at hc
      unfold serialize_data at hc
      rcases getLast?_intercalate hparts_ne hc with rfl | ⟨p, hp, hcp⟩
      · decide
      · obtain ⟨kv, hkv1, hkv2⟩ := dataParts_getLast? hdata
        rw [hkv2] at hp
        obtain rfl : kv.2.str = p := Option.some.inj hp
        unfold lastValOk at hws
        rw [hkv1] at hws
        simp [hcp] at hws
        simpa using hws
    have hsplit : splitSepMax ':' 3
        (x.command_type.value
          ++ ':' :: (intStr x.sequence_id
            ++ ':' :: (intStr x.timestamp ++ ':' :: serialize_data x.data)))
        = [x.command_type.value, intStr x.sequence_id, intStr x.timestamp,
            serialize_data x.data] := by
      rw [splitSepMax_cons 2 _ hcolon_ctv, splitSepMax_cons 1 _ hcolon_seq,
        splitSepMax_cons 0 _ hcolon_ts]
      rfl
    have hsplitOn : (serialize_data x.data).splitOn '|'
        = x.data.flatMap (fun kv => [kv.1, kv.2.str]) :=
      List.splitOn_intercalate _ '|' hpipe_parts hparts_ne
    have heven : ((serialize_data x.data).splitOn '|').length % 2 = 0 := by
      rw [hsplitOn, dataParts_length]
      omega
    have hfold :
        (pairUp ((serialize_data x.data).splitOn '|')).foldl
            (fun d kv => dict_set d kv.1 (coerce_value kv.2)) []
          = x.data.map (fun kv => (kv.1, coerce_value kv.2.str)) := by
      rw [hsplitOn, pairUp_flatMap, List.foldl_map]
      have hfm : x.data.foldl
          (fun d kv => dict_set d (kv.1, kv.2.str).1 (coerce_value (kv.1, kv.2.str).2)) []
          = (x.data.map (fun kv => (kv.1, coerce_value kv.2.str))).foldl
              (fun d kv => dict_set d kv.1 kv.2) [] := by
        rw [List.foldl_map]
      rw [hfm, foldl_dict_set _ [] (by
        simp only [List.nil_append, List.map_map]
        have : (Prod.fst ∘ fun kv : List Char × PyVal => (kv.1, coerce_value kv.2.str))
            = Prod.fst := by
          funext kv
          rfl
        rw [this]
        exact hnd)]
      simp
    simp only [deserialize]
    rw [hser, pyStrip_append_newline _ (hhead _) hlast, hsplit]
    simp [ofValue_value, pyInt?_intStr, deserialize_data, hdataStr_ne, heven, hfold]

/-- Witness for C5 at a concrete command with an integer and a string
data value. -/
theorem sync_roundtrip_witness :
    (let x : SyncCommand := ⟨-7, 123, SyncCommandType.SYNC_ADJ,
        [("finger".toList, PyVal.intVal 3), ("note".toList, PyVal.strVal "ok".toList)]⟩
     deserialize (serialize x)
       = Except.ok ⟨-7, 123, SyncCommandType.SYNC_ADJ,
          [("finger".toList, PyVal.intVal 3), ("note".toList, PyVal.strVal "ok".toList)]⟩) :=
  sync_roundtrip _ (by decide) (by decide) (by decide)

/-- C5 counterexample: the command with data value "v " (trailing space)
contains no ':' or '|' in its keys and values, yet the round trip
returns "v": `strip()` in deserialize eats the trailing whitespace of
the final data value, so the data map is not reproduced. -/
theorem sync_roundtrip_cex :
    (∀ kv ∈ ([(("k".toList : List Char), PyVal.strVal "v ".toList)] :
        List (List Char × PyVal)),
      ':' ∉ kv.1 ∧ '|' ∉ kv.1 ∧ ':' ∉ kv.2.str ∧ '|' ∉ kv.2.str) ∧
    deserialize (serialize ⟨1, 2, SyncCommandType.EXECUTE_BUZZ,
        [("k".toList, PyVal.strVal "v ".toList)]⟩)
      = Except.ok ⟨1, 2, SyncCommandType.EXECUTE_BUZZ,
          [("k".toList, PyVal.strVal "v".toList)]⟩ ∧
    deserialize (serialize ⟨1, 2, SyncCommandType.EXECUTE_BUZZ,
        [("k".toList, PyVal.strVal "v ".toList)]⟩)
      ≠ Except.ok ⟨1, 2, SyncCommandType.EXECUTE_BUZZ,
          [("k".toList, PyVal.strVal "v ".toList)]⟩ := by
  refine ⟨by decide, by decide, by decide⟩

/-- C6 counterexample: the bytes actually put on the wire for the
EXECUTE_BUZZ example are not the claimed
`EXECUTE_BUZZ:42:1000000:finger|0|amplitude|50` followed by one EOT:
the serializer appends a newline before the framing layer appends the
EOT. -/
theorem wire_bytes_cex :
    ble_send (serialize ⟨42, 1000000, SyncCommandType.EXECUTE_BUZZ,
        [("finger".toList, PyVal.intVal 0), ("amplitude".toList, PyVal.intVal 50)]⟩)
      ≠ "EXECUTE_BUZZ:42:1000000:finger|0|amplitude|50".toList ++ [EOT] := by
  decide

/-- C6 (amended): every serialized sync command put on the wire through
the framing sender is byte-exactly
`<TYPE>:<sequence_id>:<timestamp>[:<k1>|<v1>...]` followed by one 0x0A
newline (appended by the serializer) and then exactly one 0x04 EOT byte
(appended by `BLE.send`); in particular the EXECUTE_BUZZ example yields
`EXECUTE_BUZZ:42:1000000:finger|0|amplitude|50\n` plus one EOT. -/
theorem wire_bytes_amended :
    ble_send (serialize ⟨42, 1000000, SyncCommandType.EXECUTE_BUZZ,
        [("finger".toList, PyVal.intVal 0), ("amplitude".toList, PyVal.intVal 50)]⟩)
      = "EXECUTE_BUZZ:42:1000000:finger|0|amplitude|50\n".toList ++ [EOT] ∧
    ∀ c : SyncCommand, ble_send (serialize c)
      = List.intercalate [':']
          (if c.data = []
            then [c.command_type.value, intStr c.sequence_id, intStr c.timestamp]
            else [c.command_type.value, intStr c.sequence_id, intStr c.timestamp,
              serialize_data c.data]) ++ '\n' :: [EOT] := by
  constructor
  · decide
  · intro c
    simp only [ble_send, serialize]
    split_ifs <;> simp

/-- C8 (amended): `deserialize` signals a `ValueError` whenever the
decoded, stripped message has fewer than three colon-separated fields,
and whenever the fourth (data) field is nonempty and splits into an odd
number of pipe-delimited tokens; an empty fourth field instead yields an
empty data map without error (see the counterexample). -/
theorem deserialize_strict (input : List Char) :
    ((splitSepMax ':' 3 (pyStrip input)).length < 3 →
      ∃ e, deserialize input = Except.error e) ∧
    (∀ p0 p1 p2 p3, splitSepMax ':' 3 (pyStrip input) = [p0, p1, p2, p3] →
      p3 ≠ [] → (p3.splitOn '|').length % 2 = 1 →
      ∃ e, deserialize input = Except.error e) := by
  constructor
  · intro h
    simp only [deserialize]
    rw [if_pos h]
    exact ⟨_, rfl⟩
  · intro p0 p1 p2 p3 hp hne hodd
    simp only [deserialize]
    rw [hp]
    rw [if_neg (by simp)]
    simp only [List.getD_cons_zero, List.getD_cons_succ]
    cases hof : SyncCommandType.ofValue p0 with
    | none => exact ⟨_, rfl⟩
    | some ct =>
      cases hs1 : pyInt? p1 with
      | none => exact ⟨_, rfl⟩
      | some sid =>
        cases hs2 : pyInt? p2 with
        | none => exact ⟨_, rfl⟩
        | some ts =>
          simp only [List.length_cons, List.length_nil]
          rw [if_pos trivial]
          simp only [deserialize_data, if_neg hne]
          rw [if_pos (by omega)]
          exact ⟨_, rfl⟩

/-- Witness for C8: a two-field message and an odd-token data field both
produce errors. -/
theorem deserialize_strict_witness :
    (∃ e, deserialize "XX".toList = Except.error e) ∧
    (∃ e, deserialize "EXECUTE_BUZZ:1:2:a|b|c".toList = Except.error e) :=
  ⟨(deserialize_strict "XX".toList).1 (by decide),
   (deserialize_strict "EXECUTE_BUZZ:1:2:a|b|c".toList).2
     "EXECUTE_BUZZ".toList "1".toList "2".toList "a|b|c".toList
     (by decide) (by decide) (by decide)⟩

/-- C8 counterexample: the message `EXECUTE_BUZZ:1:2:` has a fourth
(data) field that is empty; Python's split of the empty string on '|'
yields one (an odd number of) token, yet `deserialize` succeeds with an
empty data map instead of raising. -/
theorem deserialize_empty_data_field_ok :
    splitSepMax ':' 3 (pyStrip "EXECUTE_BUZZ:1:2:".toList)
      = ["EXECUTE_BUZZ".toList, "1".toList, "2".toList, []] ∧
    (([] : List Char).splitOn '|').length % 2 = 1 ∧
    deserialize "EXECUTE_BUZZ:1:2:".toList
      = Except.ok ⟨1, 2, SyncCommandType.EXECUTE_BUZZ, []⟩ := by
  refine ⟨by decide, by decide, by decide⟩

/-! ## Pattern generation (src/therapy.py, lines 24-285)

Python's `random.Random` (standard library) is modelled as two
deterministic streams of draws with cursors: naturals feeding
`_randbelow` (consumed by `shuffle`) and rationals in [0, 1) feeding
`random()` (consumed by `uniform`, which returns
`a + (b - a) * random()`).  Quantifying over the streams covers every
seed, including the unseeded case. -/

structure PyRandom where
  natDraws : Nat → Nat
  unitDraws : Nat → ℚ
  natIdx : Nat
  unitIdx : Nat

/-- The all-zero entropy source, used for concrete evaluations. -/
def zeroRng : PyRandom := ⟨fun _ => 0, fun _ => 0, 0, 0⟩

/-- In-place swap of positions `i` and `j`, as `x[i], x[j] = x[j], x[i]`. -/
def listSwap (l : List Nat) (i j : Nat) : List Nat :=
  (l.set i (l.getD j 0)).set j (l.getD i 0)

/-- The Fisher-Yates loop of CPython's `random.shuffle`:
`for i in reversed(range(1, len(x))): j = _randbelow(i + 1); swap`.
`k` is the cursor into the draw stream; `_randbelow(m)` is modelled as
`draw % m`, which like the original always lies below `m`. -/
def shuffleFrom (draws : Nat → Nat) : Nat → Nat → List Nat → List Nat
  | _, 0, l => l
  | k, i + 1, l => shuffleFrom draws (k + 1) i (listSwap l (i + 1) (draws k % (i + 2)))

/-- `random.Random.shuffle`, returning the shuffled list and the
advanced generator (`len(x) - 1` draws are consumed). -/
def PyRandom.shuffle (rng : PyRandom) (l : List Nat) : List Nat × PyRandom :=
  (shuffleFrom rng.natDraws rng.natIdx (l.length - 1) l,
   { rng with natIdx := rng.natIdx + (l.length - 1) })

/-- `random.Random.uniform a b` for the unit draw `r`:
`a + (b - a) * random()`. -/
def pyUniformVal (a b r : ℚ) : ℚ := a + (b - a) * r

/-- The timing loop shared verbatim by all three generators in
src/therapy.py (lines 134-144, 200-210, 267-277): for each of the
`num_fingers` steps, if `jitter_percent > 0` draw
`uniform(-jitter_amount, jitter_amount)`, add it to the inter-burst
interval and floor at zero; otherwise use the interval unchanged.
`k` is the cursor into the unit-draw stream. -/
def genTimingLoop (jitter_percent inter_burst jitter_amount : ℚ) (u : Nat → ℚ) :
    Nat → Nat → List ℚ
  | _, 0 => []
  | k, n + 1 =>
    if 0 < jitter_percent then
      max 0 (inter_burst + pyUniformVal (-jitter_amount) jitter_amount (u k))
        :: genTimingLoop jitter_percent inter_burst jitter_amount u (k + 1) n
    else
      inter_burst :: genTimingLoop jitter_percent inter_burst jitter_amount u k n

/-- `Pattern` from src/therapy.py, lines 24-75. -/
structure Pattern where
  left_sequence : List Nat
  right_sequence : List Nat
  timing_ms : List ℚ
  burst_duration_ms : ℚ
  inter_burst_interval_ms : ℚ
deriving DecidableEq

/-- `generate_random_permutation` from src/therapy.py, lines 83-152
(RNDP): shuffle `range(num_fingers)` for the left hand, mirror or
independently shuffle for the right hand, then run the jitter timing
loop.  The `random_seed` argument is subsumed by the choice of `rng`. -/
def generate_random_permutation (num_fingers : Nat)
    (time_on_ms time_off_ms jitter_percent : ℚ) (mirror_pattern : Bool)
    (rng : PyRandom) : Pattern × PyRandom :=
  let cycle_duration_ms := time_on_ms + time_off_ms
  let inter_burst_interval_ms := 4 * cycle_duration_ms
  let s1 := rng.shuffle (List.range num_fingers)
  let s2 := if mirror_pattern then s1 else s1.2.shuffle (List.range num_fingers)
  let jitter_amount := cycle_duration_ms * (jitter_percent / 100) / 2
  let timing_ms := genTimingLoop jitter_percent inter_burst_interval_ms jitter_amount
    s2.2.unitDraws s2.2.unitIdx num_fingers
  let rngOut := { s2.2 with
    unitIdx := s2.2.unitIdx + (if 0 < jitter_percent then num_fingers else 0) }
  (⟨s1.1, s2.1, timing_ms, time_on_ms, inter_burst_interval_ms⟩, rngOut)

/-- `generate_sequential_pattern` from src/therapy.py, lines 155-218:
`range(num_fingers)`, optionally reversed, identical on both hands
(the `mirror_pattern` argument is accepted but unused, as in the
source); same timing loop over a fresh unseeded generator. -/
def generate_sequential_pattern (num_fingers : Nat)
    (time_on_ms time_off_ms jitter_percent : ℚ) (mirror_pattern reverse : Bool)
    (rng : PyRandom) : Pattern × PyRandom :=
  let cycle_duration_ms := time_on_ms + time_off_ms
  let inter_burst_interval_ms := 4 * cycle_duration_ms
  let sequence := if reverse then (List.range num_fingers).reverse
    else List.range num_fingers
  let jitter_amount := cycle_duration_ms * (jitter_percent / 100) / 2
  let timing_ms := genTimingLoop jitter_percent inter_burst_interval_ms jitter_amount
    rng.unitDraws rng.unitIdx num_fingers
  let rngOut := { rng with
    unitIdx := rng.unitIdx + (if 0 < jitter_percent then num_fingers else 0) }
  (⟨sequence, sequence, timing_ms, time_on_ms, inter_burst_interval_ms⟩, rngOut)

/-- `generate_mirrored_pattern` from src/therapy.py, lines 221-285: one
base sequence, shuffled when `randomize` is set, copied to both hands;
same timing loop. -/
def generate_mirrored_pattern (num_fingers : Nat)
    (time_on_ms time_off_ms jitter_percent : ℚ) (randomize : Bool)
    (rng : PyRandom) : Pattern × PyRandom :=
  let cycle_duration_ms := time_on_ms + time_off_ms
  let inter_burst_interval_ms := 4 * cycle_duration_ms
  let s1 := if randomize then rng.shuffle (List.range num_fingers)
    else (List.range num_fingers, rng)
  let jitter_amount := cycle_duration_ms * (jitter_percent / 100) / 2
  let timing_ms := genTimingLoop jitter_percent inter_burst_interval_ms jitter_amount
    s1.2.unitDraws s1.2.unitIdx num_fingers
  let rngOut := { s1.2 with
    unitIdx := s1.2.unitIdx + (if 0 < jitter_percent then num_fingers else 0) }
  (⟨s1.1, s1.1, timing_ms, time_on_ms, inter_burst_interval_ms⟩, rngOut)

/-! ## Supporting lemmas for the pattern generator claims -/

lemma listSwap_length (l : List Nat) (i j : Nat) :
    (listSwap l i j).length = l.length := by
  simp [listSwap]

lemma shuffleFrom_length (draws : Nat → Nat) :
    ∀ (i k : Nat) (l : List Nat), (shuffleFrom draws k i l).length = l.length := by
  intro i
  induction i with
  | zero =>
    intro k l
    rfl
  | succ i ih =>
    intro k l
    rw [show shuffleFrom draws k (i + 1) l
        = shuffleFrom draws (k + 1) i (listSwap l (i + 1) (draws k % (i + 2))) from rfl,
      ih, listSwap_length]

lemma listSwap_mem {l : List Nat} {i j : Nat} {x : Nat}
    (hi : i < l.length) (hj : j < l.length) (h : x ∈ listSwap l i j) : x ∈ l := by
  unfold listSwap at h
  rcases List.mem_or_eq_of_mem_set h with h2 | h2
  · rcases List.mem_or_eq_of_mem_set h2 with h3 | h3
    · exact h3
    · rw [h3, List.getD_eq_getElem _ _ hj]
      exact List.getElem_mem hj
  · rw [h2, List.getD_eq_getElem _ _ hi]
    exact List.getElem_mem hi

lemma shuffleFrom_mem (draws : Nat → Nat) :
    ∀ (i k : Nat) (l : List Nat) (x : Nat), i < l.length →
      x ∈ shuffleFrom draws k i l → x ∈ l := by
  intro i
  induction i with
  | zero =>
    intro k l x _ h
    exact h
  | succ i ih =>
    intro k l x hi h
    rw [show shuffleFrom draws k (i + 1) l
        = shuffleFrom draws (k + 1) i (listSwap l (i + 1) (draws k % (i + 2))) from rfl] at h
    have hswap := ih (k + 1) (listSwap l (i + 1) (draws k % (i + 2))) x
      (by rw [listSwap_length]; omega) h
    exact listSwap_mem hi
      (lt_of_le_of_lt (Nat.le_of_lt_succ (Nat.mod_lt _ (by omega))) hi) hswap

lemma shuffle_output {rng : PyRandom} {n : Nat} (hn : 1 ≤ n) :
    ((rng.shuffle (List.range n)).1.length = n ∧
      ∀ x ∈ (rng.shuffle (List.range n)).1, x < n) := by
  unfold PyRandom.shuffle
  constructor
  · rw [shuffleFrom_length, List.length_range]
  · intro x hx
    rw [← List.mem_range]
    refine shuffleFrom_mem _ _ _ _ x ?_ hx
    rw [List.length_range]
    omega

lemma genTimingLoop_length (jp ib ja : ℚ) (u : Nat → ℚ) :
    ∀ (n k : Nat), (genTimingLoop jp ib ja u k n).length = n := by
  intro n
  induction n with
  | zero =>
    intro k
    rfl
  | succ n ih =>
    intro k
    unfold genTimingLoop
    split_ifs <;> simp [ih]

lemma genTimingLoop_getD (jp ib ja : ℚ) (u : Nat → ℚ) :
    ∀ (n k i : Nat), i < n →
    (genTimingLoop jp ib ja u k n).getD i 0
      = if 0 < jp then max 0 (ib + pyUniformVal (-ja) ja (u (k + i))) else ib := by
  intro n
  induction n with
  | zero =>
    intro k i hi
    omega
  | succ n ih =>
    intro k i hi
    unfold genTimingLoop
    split_ifs with hjp
    · cases i with
      | zero => simp [hjp]
      | succ i =>
        rw [List.getD_cons_succ, ih (k + 1) i (by omega)]
        rw [if_pos hjp, show k + 1 + i = k + (i + 1) from by omega]
    · cases i with
      | zero => simp
      | succ i =>
        rw [List.getD_cons_succ, ih k i (by omega), if_neg hjp]

/-! ## Theorems: pattern generator claims -/

/-- Well-formedness of a generated `Pattern`, as claim C1 states it: the
three sequences have equal length and every index lies below
`num_fingers`. -/
def pattern_indices_ok (p : Pattern) (n : Nat) : Prop :=
  p.left_sequence.length = p.timing_ms.length ∧
  p.right_sequence.length = p.timing_ms.length ∧
  (∀ x ∈ p.left_sequence, x < n) ∧ (∀ x ∈ p.right_sequence, x < n)

/-- C1: for every `num_fingers ≥ 1`, every timing/jitter parameter
choice, every entropy source (hence every seed) and each of the three
generators, the returned `Pattern` has `left_sequence`,
`right_sequence` and `timing_ms` of equal length and every element of
the two hand sequences lies in `[0, num_fingers)`. -/
theorem pattern_generators_wellformed (num_fingers : Nat)
    (time_on_ms time_off_ms jitter_percent : ℚ) (mirror rev rand : Bool)
    (rng : PyRandom) (h : 1 ≤ num_fingers) :
    pattern_indices_ok
      (generate_random_permutation num_fingers time_on_ms time_off_ms jitter_percent
        mirror rng).1 num_fingers ∧
    pattern_indices_ok
      (generate_sequential_pattern num_fingers time_on_ms time_off_ms jitter_percent
        mirror rev rng).1 num_fingers ∧
    pattern_indices_ok
      (generate_mirrored_pattern num_fingers time_on_ms time_off_ms jitter_percent
        rand rng).1 num_fingers := by
  refine ⟨?_, ?_, ?_⟩
  · unfold generate_random_permutation pattern_indices_ok
    dsimp only
    rw [genTimingLoop_length]
    obtain ⟨hl1, hm1⟩ := @shuffle_output rng num_fingers h
    cases mirror with
    | true =>
      rw [if_pos rfl]
      exact ⟨hl1, hl1, hm1, hm1⟩
    | false =>
      rw [if_neg (by simp)]
      obtain ⟨hl2, hm2⟩ :=
        @shuffle_output (rng.shuffle (List.range num_fingers)).2 num_fingers h
      exact ⟨hl1, hl2, hm1, hm2⟩
  · unfold generate_sequential_pattern pattern_indices_ok
    dsimp only
    rw [genTimingLoop_length]
    cases rev with
    | true =>
      rw [if_pos rfl]
      refine ⟨by simp, by simp, ?_, ?_⟩ <;>
        (intro x hx; rw [List.mem_reverse, List.mem_range] at hx; exact hx)
    | false =>
      rw [if_neg (by simp)]
      refine ⟨by simp, by simp, ?_, ?_⟩ <;>
        (intro x hx; rw [List.mem_range] at hx; exact hx)
  · unfold generate_mirrored_pattern pattern_indices_ok
    dsimp only
    rw [genTimingLoop_length]
    cases rand with
    | true =>
      rw [if_pos rfl]
      obtain ⟨hl1, hm1⟩ := @shuffle_output rng num_fingers h
      exact ⟨hl1, hl1, hm1, hm1⟩
    | false =>
      rw [if_neg (by simp)]
      refine ⟨by simp, by simp, ?_, ?_⟩ <;>
        (intro x hx; rw [List.mem_range] at hx; exact hx)

/-- Witness for C1 with three fingers, the default timing parameters and
the all-zero entropy source. -/
theorem pattern_generators_wellformed_witness :
    1 ≤ 3 ∧ pattern_indices_ok (generate_random_permutation 3 100 67 0 true zeroRng).1 3 :=
  ⟨by norm_num,
   (pattern_generators_wellformed 3 100 67 0 true false true zeroRng (by norm_num)).1⟩

/-- The jitter offset actually drawn for one timing step: the value of
`uniform(-jitter_amount, jitter_amount)` for the unit draw `r`, with
`jitter_amount = (time_on + time_off) * jitter_percent / 200` as the
generators compute it (this is `base_interval * jitter_percent / 800`,
since the base inter-burst interval is `4 * (time_on + time_off)`). -/
def stepJitter (ton toff jp r : ℚ) : ℚ :=
  pyUniformVal (-((ton + toff) * (jp / 100) / 2)) ((ton + toff) * (jp / 100) / 2) r

lemma genTimingLoop_const {jp : ℚ} (ib ja : ℚ) (u : Nat → ℚ) (hjp : ¬ 0 < jp) :
    ∀ (n k : Nat), ∀ t ∈ genTimingLoop jp ib ja u k n, t = ib := by
  intro n
  induction n with
  | zero =>
    intro k t ht
    simp [genTimingLoop] at ht
  | succ n ih =>
    intro k t ht
    rw [show genTimingLoop jp ib ja u k (n + 1)
        = ib :: genTimingLoop jp ib ja u k n from by simp [genTimingLoop, hjp]] at ht
    rcases List.mem_cons.mp ht with rfl | ht2
    · rfl
    · exact ih k t ht2

lemma genTimingLoop_spec (ton toff jp : ℚ) (u : Nat → ℚ) (k n : Nat)
    (hton : 0 ≤ ton) (htoff : 0 ≤ toff) (hu : ∀ m, 0 ≤ u m ∧ u m ≤ 1) :
    (jp = 0 → ∀ t ∈ genTimingLoop jp (4 * (ton + toff))
      ((ton + toff) * (jp / 100) / 2) u k n, t = 4 * (ton + toff)) ∧
    (0 < jp → ∀ i < n,
      (genTimingLoop jp (4 * (ton + toff))
          ((ton + toff) * (jp / 100) / 2) u k n).getD i 0
        = max 0 (4 * (ton + toff) + stepJitter ton toff jp (u (k + i))) ∧
      -((ton + toff) * (jp / 100) / 2) ≤ stepJitter ton toff jp (u (k + i)) ∧
      stepJitter ton toff jp (u (k + i)) ≤ (ton + toff) * (jp / 100) / 2) := by
  constructor
  · intro hjp t ht
    exact genTimingLoop_const _ _ u (by rw [hjp]; exact lt_irrefl 0) n k t ht
  · intro hjp i hi
    have hja : 0 ≤ (ton + toff) * (jp / 100) / 2 := by positivity
    have hr0 := (hu (k + i)).1
    have hr1 := (hu (k + i)).2
    refine ⟨?_, ?_, ?_⟩
    · rw [genTimingLoop_getD _ _ _ _ n k i hi, if_pos hjp]
      rfl
    · unfold stepJitter pyUniformVal
      nlinarith
    · unfold stepJitter pyUniformVal
      nlinarith

/-- C2 (amended): for every generated pattern, each per-step timing
value equals the base inter-burst interval `4 * (time_on + time_off)`
when `jitter_percent = 0`; and when `jitter_percent > 0`, the step `i`
interval equals `max(0, base_interval + u)` where `u` is the uniform
draw `uniform(-J, J)` consumed for that step with
`J = (time_on + time_off) * jitter_percent / 200
   = base_interval * jitter_percent / 800`
(not `base_interval * jitter_percent / 200` as the claim states); in
particular `u` always lies in `[-J, J]`. -/
theorem timing_formula (num_fingers : Nat) (ton toff jp : ℚ)
    (mirror rev rand : Bool) (rng : PyRandom)
    (hton : 0 ≤ ton) (htoff : 0 ≤ toff)
    (hunit : ∀ m, 0 ≤ rng.unitDraws m ∧ rng.unitDraws m ≤ 1) :
    ∀ p ∈ [(generate_random_permutation num_fingers ton toff jp mirror rng).1,
           (generate_sequential_pattern num_fingers ton toff jp mirror rev rng).1,
           (generate_mirrored_pattern num_fingers ton toff jp rand rng).1],
      (jp = 0 → ∀ t ∈ p.timing_ms, t = 4 * (ton + toff)) ∧
      (0 < jp → ∀ i < num_fingers,
        p.timing_ms.getD i 0
          = max 0 (4 * (ton + toff) + stepJitter ton toff jp (rng.unitDraws (rng.unitIdx + i))) ∧
        -((ton + toff) * (jp / 100) / 2)
          ≤ stepJitter ton toff jp (rng.unitDraws (rng.unitIdx + i)) ∧
        stepJitter ton toff jp (rng.unitDraws (rng.unitIdx + i))
          ≤ (ton + toff) * (jp / 100) / 2) := by
  intro p hp
  simp only [List.mem_cons, List.not_mem_nil, or_false] at hp
  rcases hp with rfl | rfl | rfl
  · unfold generate_random_permutation
    cases mirror with
    | true =>
      exact genTimingLoop_spec ton toff jp rng.unitDraws rng.unitIdx num_fingers
        hton htoff hunit
    | false =>
      exact genTimingLoop_spec ton toff jp rng.unitDraws rng.unitIdx num_fingers
        hton htoff hunit
  · unfold generate_sequential_pattern
    exact genTimingLoop_spec ton toff jp rng.unitDraws rng.unitIdx num_fingers
      hton htoff hunit
  · unfold generate_mirrored_pattern
    cases rand with
    | true =>
      exact genTimingLoop_spec ton toff jp rng.unitDraws rng.unitIdx num_fingers
        hton htoff hunit
    | false =>
      exact genTimingLoop_spec ton toff jp rng.unitDraws rng.unitIdx num_fingers
        hton htoff hunit

/-- Witness for C2 at the default parameters, jitter 23.5 percent, and
the all-zero entropy source (for which every jitter draw is the left
endpoint). -/
theorem timing_formula_witness :
    (0 : ℚ) ≤ 100 ∧
    ((47 / 2 : ℚ) = 0 →
      ∀ t ∈ (generate_random_permutation 2 100 67 (47 / 2) true zeroRng).1.timing_ms,
        t = 4 * (100 + 67)) ∧
    (0 < (47 / 2 : ℚ) → ∀ i < 2,
      (generate_random_permutation 2 100 67 (47 / 2) true zeroRng).1.timing_ms.getD i 0
        = max 0 (4 * (100 + 67)
            + stepJitter 100 67 (47 / 2) (zeroRng.unitDraws (zeroRng.unitIdx + i))) ∧
      -((100 + 67) * ((47 / 2) / 100) / 2)
        ≤ stepJitter 100 67 (47 / 2) (zeroRng.unitDraws (zeroRng.unitIdx + i)) ∧
      stepJitter 100 67 (47 / 2) (zeroRng.unitDraws (zeroRng.unitIdx + i))
        ≤ (100 + 67) * ((47 / 2) / 100) / 2) :=
  ⟨by norm_num,
   (timing_formula 2 100 67 (47 / 2) true false true zeroRng (by norm_num) (by norm_num)
      (fun m => ⟨le_refl 0, by norm_num [zeroRng]⟩)
      (generate_random_permutation 2 100 67 (47 / 2) true zeroRng).1
      (by simp)).1,
   (timing_formula 2 100 67 (47 / 2) true false true zeroRng (by norm_num) (by norm_num)
      (fun m => ⟨le_refl 0, by norm_num [zeroRng]⟩)
      (generate_random_permutation 2 100 67 (47 / 2) true zeroRng).1
      (by simp)).2⟩

/-- C2 counterexample: at `num_fingers = 1`, `time_on = 100`,
`time_off = 67`, `jitter_percent = 100` and the all-zero entropy source,
the produced timing value is `584.5`, while the claim's formula — the
uniform draw taken over `[-J, J]` with `J = base_interval * 100 / 200 =
334` — predicts `max(0, 668 - 334) = 334`: the code jitters by a
quarter of the claimed amplitude. -/
theorem timing_formula_cex :
    ¬ ((generate_random_permutation 1 100 67 100 true zeroRng).1.timing_ms.getD 0 0
        = max 0 (4 * (100 + 67)
            + pyUniformVal (-(4 * (100 + 67) * 100 / 200)) (4 * (100 + 67) * 100 / 200)
                (zeroRng.unitDraws zeroRng.unitIdx))) := by
  have h1 : (generate_random_permutation 1 100 67 100 true zeroRng).1.timing_ms
      = [1169 / 2] := by
    norm_num [generate_random_permutation, genTimingLoop, pyUniformVal, zeroRng,
      PyRandom.shuffle, max_def]
  rw [h1]
  norm_num [pyUniformVal, zeroRng, max_def]

/-! ## Therapy execution engine (src/therapy.py, lines 293-621)

The engine is embedded as a state record plus one function per method;
`time.monotonic()` readings are passed in as the `t` argument of each
call.  The injected callbacks are modelled by presence flags plus an
event trace: an `EngineEvent` is appended exactly when the
corresponding callback object is set and would be invoked.  `activate`
and `deactivate` events carry a ghost burst identifier (`burst_counter`)
that does not influence behaviour; it only names which activation burst
an invocation belongs to, so that claim C7's "within the same burst"
can be stated.  Exceptions from `_generate_next_pattern` (unknown
pattern type) are modelled by `Option`: the caller keeps the mutations
made before the raise. -/

/-- The `_pattern_config` dict contents stored by `start_session`. -/
structure PatternConfig where
  pattern_type : String
  time_on_ms : ℚ
  time_off_ms : ℚ
  jitter_percent : ℚ
  num_fingers : Nat
  mirror_pattern : Bool

/-- One observable callback invocation. -/
inductive EngineEvent
  | sendCommand (left right amplitude : Nat)
  | activate (finger amplitude burst : Nat)
  | deactivate (finger burst : Nat)
  | cycleComplete (count : Nat)
deriving DecidableEq

/-- `TherapyEngine` state, from `TherapyEngine.__init__` (lines
331-359).  `activation_start` bundles `_activation_start_time` with the
ghost burst id; `timing_drift_ms` is omitted (it is only ever reset). -/
structure TherapyEngine where
  is_running : Bool
  is_paused : Bool
  should_stop : Bool
  session_start_time : Option ℚ
  session_duration_sec : Option ℚ
  pattern_config : Option PatternConfig
  current_pattern : Option Pattern
  pattern_index : Nat
  activation_start : Option (ℚ × Nat)
  waiting_for_interval : Bool
  interval_start_time : Option ℚ
  cycles_completed : Nat
  total_activations : Nat
  has_send_command : Bool
  has_activate : Bool
  has_deactivate : Bool
  has_cycle_complete : Bool
  rng : PyRandom
  burst_counter : Nat

/-- Fresh engine with no callbacks installed, parameterised by the
entropy source used for unseeded pattern generation. -/
def TherapyEngine.init (rng : PyRandom) : TherapyEngine :=
  ⟨false, false, false, none, none, none, none, 0, none, false, none, 0, 0,
   false, false, false, false, rng, 0⟩

/-- Python truthiness of an optional number: `None` and `0` are falsy
(the engine's `if self._session_start_time and self._session_duration_sec:`
and `if self._interval_start_time:` checks). -/
def pyTruthy : Option ℚ → Bool
  | none => false
  | some x => x != 0

/-- Python truthiness of `self._current_pattern`: `Pattern` defines
`__len__`, so a pattern is truthy exactly when it is non-`None` and has
a nonzero length. -/
def pyTruthyPattern : Option Pattern → Bool
  | none => false
  | some p => p.left_sequence.length != 0

/-- `TherapyEngine._generate_next_pattern` (lines 551-587): dispatch on
`pattern_type` with the dict-lookup defaults of the source; an unknown
type raises `ValueError` (`none`).  On success the pattern execution
state is reset. -/
def TherapyEngine.generate_next_pattern (e : TherapyEngine) : Option TherapyEngine :=
  let cfg := e.pattern_config
  let ptype := (cfg.map PatternConfig.pattern_type).getD "rndp"
  let ton := (cfg.map PatternConfig.time_on_ms).getD 100
  let toff := (cfg.map PatternConfig.time_off_ms).getD 67
  let nf := (cfg.map PatternConfig.num_fingers).getD 5
  let mirror := (cfg.map PatternConfig.mirror_pattern).getD true
  if ptype = "rndp" then
    let jp := (cfg.map PatternConfig.jitter_percent).getD (47 / 2)
    let pr := generate_random_permutation nf ton toff jp mirror e.rng
    some { e with
      current_pattern := some pr.1, rng := pr.2,
      pattern_index := 0, activation_start := none,
      waiting_for_interval := false, interval_start_time := none }
  else if ptype = "sequential" then
    let jp := (cfg.map PatternConfig.jitter_percent).getD 0
    let pr := generate_sequential_pattern nf ton toff jp mirror false e.rng
    some { e with
      current_pattern := some pr.1, rng := pr.2,
      pattern_index := 0, activation_start := none,
      waiting_for_interval := false, interval_start_time := none }
  else if ptype = "mirrored" then
    let jp := (cfg.map PatternConfig.jitter_percent).getD (47 / 2)
    let pr := generate_mirrored_pattern nf ton toff jp true e.rng
    some { e with
      current_pattern := some pr.1, rng := pr.2,
      pattern_index := 0, activation_start := none,
      waiting_for_interval := false, interval_start_time := none }
  else
    none

/-- `TherapyEngine.start_session` (lines 397-447): reset the run flags
and statistics, store the session bounds and pattern configuration,
then generate the first pattern.  `t` is `time.monotonic()` at the
call; a `ValueError` from generation leaves the resets in place. -/
def TherapyEngine.start_session (e : TherapyEngine) (duration_sec : ℚ)
    (pattern_type : String) (time_on_ms time_off_ms jitter_percent : ℚ)
    (num_fingers : Nat) (mirror_pattern : Bool) (t : ℚ) : TherapyEngine :=
  let e1 := { e with
    is_running := true, is_paused := false, should_stop := false,
    cycles_completed := 0, total_activations := 0,
    session_start_time := some t, session_duration_sec := some duration_sec,
    pattern_config := some ⟨pattern_type, time_on_ms, time_off_ms, jitter_percent,
      num_fingers, mirror_pattern⟩ }
  (e1.generate_next_pattern).getD e1

/-- `TherapyEngine._execute_pattern_step` (lines 485-549) at time `t`,
for the current pattern `p`. -/
def TherapyEngine.execute_pattern_step (e : TherapyEngine) (p : Pattern) (t : ℚ) :
    TherapyEngine × List EngineEvent :=
  if e.pattern_index ≥ p.left_sequence.length then
    let e1 := { e with cycles_completed := e.cycles_completed + 1 }
    let evs := if e.has_cycle_complete
      then [EngineEvent.cycleComplete e1.cycles_completed] else []
    ((e1.generate_next_pattern).getD e1, evs)
  else if e.waiting_for_interval then
    if pyTruthy e.interval_start_time then
      let ts := e.interval_start_time.getD 0
      let elapsed_ms := (t - ts) * 1000
      let required := if e.pattern_index = 0
        then p.timing_ms.getD (p.timing_ms.length - 1) 0
        else p.timing_ms.getD (e.pattern_index - 1) 0
      if elapsed_ms ≥ required then
        ({ e with waiting_for_interval := false, interval_start_time := none }, [])
      else
        (e, [])
    else
      (e, [])
  else
    match e.activation_start with
    | none =>
      let lf := p.left_sequence.getD e.pattern_index 0
      let rf := p.right_sequence.getD e.pattern_index 0
      let evs := (if e.has_send_command then [EngineEvent.sendCommand lf rf 100] else [])
        ++ (if e.has_activate
            then [EngineEvent.activate lf 100 e.burst_counter,
                  EngineEvent.activate rf 100 e.burst_counter]
            else [])
      ({ e with
          activation_start := some (t, e.burst_counter),
          burst_counter := e.burst_counter + 1,
          total_activations := e.total_activations + 2 }, evs)
    | some tb =>
      let elapsed_ms := (t - tb.1) * 1000
      if elapsed_ms ≥ p.burst_duration_ms then
        let lf := p.left_sequence.getD e.pattern_index 0
        let rf := p.right_sequence.getD e.pattern_index 0
        let evs := if e.has_deactivate
          then [EngineEvent.deactivate lf tb.2, EngineEvent.deactivate rf tb.2]
          else []
        ({ e with
            activation_start := none, waiting_for_interval := true,
            interval_start_time := some t,
            pattern_index := e.pattern_index + 1 }, evs)
      else
        (e, [])

/-- `TherapyEngine.update` (lines 449-483) at time `t`: early-out when
not running, paused, or stop-requested; session-timeout check guarded by
the Python truthiness of both session fields (so a zero duration or a
zero start time disables it); then one pattern step when a truthy
pattern is installed. -/
def TherapyEngine.update (e : TherapyEngine) (t : ℚ) :
    TherapyEngine × List EngineEvent :=
  if e.is_running = false then (e, [])
  else if e.is_paused then (e, [])
  else if e.should_stop then ({ e with is_running := false }, [])
  else if pyTruthy e.session_start_time && pyTruthy e.session_duration_sec then
    if t - (e.session_start_time.getD 0) ≥ e.session_duration_sec.getD 0 then
      ({ e with should_stop := true, is_running := false }, [])
    else if pyTruthyPattern e.current_pattern then
      match e.current_pattern with
      | some p => e.execute_pattern_step p t
      | none => (e, [])
    else
      (e, [])
  else if pyTruthyPattern e.current_pattern then
    match e.current_pattern with
    | some p => e.execute_pattern_step p t
    | none => (e, [])
  else
    (e, [])

/-- `pause`, `resume`, `stop` (lines 589-600). -/
def TherapyEngine.pause (e : TherapyEngine) : TherapyEngine :=
  { e with is_paused := true }

def TherapyEngine.resume (e : TherapyEngine) : TherapyEngine :=
  { e with is_paused := false }

def TherapyEngine.stop (e : TherapyEngine) : TherapyEngine :=
  { e with should_stop := true, is_running := false }

/-- One external call to the engine: the public API of
src/therapy.py's `TherapyEngine`, including callback
(re)configuration. -/
inductive EngineAction
  | startSession (duration_sec : ℚ) (pattern_type : String)
      (time_on_ms time_off_ms jitter_percent : ℚ) (num_fingers : Nat)
      (mirror_pattern : Bool) (t : ℚ)
  | update (t : ℚ)
  | pause
  | resume
  | stop
  | setSendCommand (b : Bool)
  | setActivate (b : Bool)
  | setDeactivate (b : Bool)
  | setCycleComplete (b : Bool)
deriving DecidableEq

/-- Effect of one call: the successor state and the callback
invocations it issued. -/
def engineStep (e : TherapyEngine) : EngineAction → TherapyEngine × List EngineEvent
  | EngineAction.startSession d pt ton toff jp nf mp t =>
    (e.start_session d pt ton toff jp nf mp t, [])
  | EngineAction.update t => e.update t
  | EngineAction.pause => (e.pause, [])
  | EngineAction.resume => (e.resume, [])
  | EngineAction.stop => (e.stop, [])
  | EngineAction.setSendCommand b => ({ e with has_send_command := b }, [])
  | EngineAction.setActivate b => ({ e with has_activate := b }, [])
  | EngineAction.setDeactivate b => ({ e with has_deactivate := b }, [])
  | EngineAction.setCycleComplete b => ({ e with has_cycle_complete := b }, [])

/-- Run a call sequence, concatenating the emitted event traces. -/
def engineRun (e : TherapyEngine) : List EngineAction → TherapyEngine × List EngineEvent
  | [] => (e, [])
  | a :: rest =>
    let r1 := engineStep e a
    let r2 := engineRun r1.1 rest
    (r2.1, r1.2 ++ r2.2)

/-! ## Theorems: engine claims -/

/-- C4: the spec scenario says an engine started with `duration_sec = 0`
stops on its first `update()` without ever invoking `activate`.  The
code does the opposite: the session-timeout check in `update` is
guarded by `if self._session_start_time and self._session_duration_sec:`
(src/therapy.py line 475), and the number `0` is falsy in Python, so a
zero duration disables the timeout entirely.  With the activate callback
installed, the first `update()` after
`start_session(duration_sec=0, pattern_type="rndp", time_on_ms=100,
time_off_ms=67, jitter_percent=0)` leaves the engine running and
invokes `activate` twice (once per hand) instead of stopping. -/
theorem duration_zero_keeps_running :
    (engineRun (TherapyEngine.init zeroRng)
        [EngineAction.setActivate true,
         EngineAction.startSession 0 "rndp" 100 67 0 5 true 5,
         EngineAction.update 6]).1.is_running = true ∧
    (engineRun (TherapyEngine.init zeroRng)
        [EngineAction.setActivate true,
         EngineAction.startSession 0 "rndp" 100 67 0 5 true 5,
         EngineAction.update 6]).2
      = [EngineEvent.activate 1 100 0, EngineEvent.activate 1 100 0] := by
  refine ⟨by decide, by decide⟩

/-! ### C7 machinery: activation/deactivation accounting

The trace property for C7 counts, per finger `f` and ghost burst id
`b`, the activate and deactivate invocations in every prefix of the
event trace: `countD f b ≤ countA f b` on all prefixes says every
deactivate for `f` is preceded by an activate for `f` issued in the
same burst that it has not already matched. -/

def isActivateFor (f b : Nat) : EngineEvent → Bool
  | EngineEvent.activate g _ bb => g == f && bb == b
  | _ => false

def isDeactivateFor (f b : Nat) : EngineEvent → Bool
  | EngineEvent.deactivate g bb => g == f && bb == b
  | _ => false

def countA (f b : Nat) (T : List EngineEvent) : Nat := T.countP (isActivateFor f b)

def countD (f b : Nat) (T : List EngineEvent) : Nat := T.countP (isDeactivateFor f b)

/-- How often finger `f` occurs in the activated pair `(l, r)`. -/
def pairCount (f l r : Nat) : Nat := (if f = l then 1 else 0) + (if f = r then 1 else 0)

lemma countA_append (f b : Nat) (T Δ : List EngineEvent) :
    countA f b (T ++ Δ) = countA f b T + countA f b Δ :=
  List.countP_append _ _ _

lemma countD_append (f b : Nat) (T Δ : List EngineEvent) :
    countD f b (T ++ Δ) = countD f b T + countD f b Δ :=
  List.countP_append _ _ _

lemma countA_eq_zero {f b : Nat} {Δ : List EngineEvent}
    (h : ∀ ev ∈ Δ, isActivateFor f b ev = false) : countA f b Δ = 0 :=
  List.countP_eq_zero.mpr (fun ev hev => by simp [h ev hev])

lemma countD_eq_zero {f b : Nat} {Δ : List EngineEvent}
    (h : ∀ ev ∈ Δ, isDeactivateFor f b ev = false) : countD f b Δ = 0 :=
  List.countP_eq_zero.mpr (fun ev hev => by simp [h ev hev])

lemma countA_take_le (f b : Nat) (Δ : List EngineEvent) (m : Nat) :
    countA f b (Δ.take m) ≤ countA f b Δ :=
  List.Sublist.countP_le _ (List.take_sublist m Δ)

lemma countD_take_le (f b : Nat) (Δ : List EngineEvent) (m : Nat) :
    countD f b (Δ.take m) ≤ countD f b Δ :=
  List.Sublist.countP_le _ (List.take_sublist m Δ)

lemma countA_pair (f b lf rf : Nat) :
    countA f b [EngineEvent.activate lf 100 b, EngineEvent.activate rf 100 b]
      = pairCount f lf rf := by
  simp only [countA, List.countP_cons, List.countP_nil, isActivateFor, pairCount,
    Bool.and_eq_true, beq_iff_eq]
  by_cases h1 : f = lf <;> by_cases h2 : f = rf <;>
    simp [h1, h2, eq_comm] <;> omega

lemma countD_pair (f b lf rf : Nat) :
    countD f b [EngineEvent.deactivate lf b, EngineEvent.deactivate rf b]
      = pairCount f lf rf := by
  simp only [countD, List.countP_cons, List.countP_nil, isDeactivateFor, pairCount,
    Bool.and_eq_true, beq_iff_eq]
  by_cases h1 : f = lf <;> by_cases h2 : f = rf <;>
    simp [h1, h2, eq_comm] <;> omega

lemma isActivateFor_ne_burst {f b g a bb : Nat} (h : bb ≠ b) :
    isActivateFor f b (EngineEvent.activate g a bb) = false := by
  simp [isActivateFor, h]

lemma isDeactivateFor_ne_burst {f b g bb : Nat} (h : bb ≠ b) :
    isDeactivateFor f b (EngineEvent.deactivate g bb) = false := by
  simp [isDeactivateFor, h]

lemma prefix_count_append {pA pD : EngineEvent → Bool} {T Δ : List EngineEvent}
    (h1 : ∀ n, (T.take n).countP pD ≤ (T.take n).countP pA)
    (h2 : ∀ m, T.countP pD + (Δ.take m).countP pD
      ≤ T.countP pA + (Δ.take m).countP pA) :
    ∀ n, ((T ++ Δ).take n).countP pD ≤ ((T ++ Δ).take n).countP pA := by
  intro n
  rw [List.take_append_eq_append_take, List.countP_append, List.countP_append]
  by_cases hn : n ≤ T.length
  · rw [show n - T.length = 0 from by omega]
    simpa using h1 n
  · rw [List.take_of_length_le (by omega)]
    exact h2 (n - T.length)

lemma prefix_countAD_append {f b : Nat} {T Δ : List EngineEvent}
    (h1 : ∀ n, countD f b (T.take n) ≤ countA f b (T.take n))
    (h2 : ∀ m, countD f b T + countD f b (Δ.take m)
      ≤ countA f b T + countA f b (Δ.take m)) :
    ∀ n, countD f b ((T ++ Δ).take n) ≤ countA f b ((T ++ Δ).take n) :=
  prefix_count_append h1 h2

/-- Inductive invariant for C7: the activate callback stays installed;
burst ids at or above the counter are unused; an in-flight activation's
burst has exactly the activate events of the current finger pair and no
deactivates yet; and the claim's prefix counting property holds. -/
def EngineInv (e : TherapyEngine) (T : List EngineEvent) : Prop :=
  e.has_activate = true ∧
  (∀ f b, e.burst_counter ≤ b → countA f b T = 0 ∧ countD f b T = 0) ∧
  (∀ tb, e.activation_start = some tb →
    tb.2 < e.burst_counter ∧
    ∃ p, e.current_pattern = some p ∧ e.pattern_index < p.left_sequence.length ∧
      ∀ f, countA f tb.2 T
          = pairCount f (p.left_sequence.getD e.pattern_index 0)
              (p.right_sequence.getD e.pattern_index 0) ∧
        countD f tb.2 T = 0) ∧
  (∀ f b n, countD f b (T.take n) ≤ countA f b (T.take n))

lemma EngineInv.congr {e e' : TherapyEngine} {T : List EngineEvent}
    (h : EngineInv e T)
    (hact : e'.has_activate = true)
    (hbc : e'.burst_counter = e.burst_counter)
    (has : e'.activation_start = e.activation_start)
    (hcp : e'.current_pattern = e.current_pattern)
    (hidx : e'.pattern_index = e.pattern_index) :
    EngineInv e' T := by
  obtain ⟨_, h2, h3, h4⟩ := h
  refine ⟨hact, ?_, ?_, h4⟩
  · intro f b hb
    exact h2 f b (by omega)
  · intro tb htb
    obtain ⟨hlt, p, hp, hi, hc⟩ := h3 tb (by rw [← has]; exact htb)
    refine ⟨by omega, p, by rw [hcp]; exact hp, by rw [hidx]; exact hi, ?_⟩
    intro f
    rw [hidx]
    exact hc f

lemma countA_cycle_part (f b n : Nat) (cc : Bool) :
    countA f b (if cc then [EngineEvent.cycleComplete n] else []) = 0 := by
  cases cc
  · rfl
  · exact countA_eq_zero (fun ev hev => by rw [List.mem_singleton.mp hev]; rfl)

lemma countD_cycle_part (f b n : Nat) (cc : Bool) :
    countD f b (if cc then [EngineEvent.cycleComplete n] else []) = 0 := by
  cases cc
  · rfl
  · exact countD_eq_zero (fun ev hev => by rw [List.mem_singleton.mp hev]; rfl)

lemma countA_send_part (f b lf rf a : Nat) (sc : Bool) :
    countA f b (if sc then [EngineEvent.sendCommand lf rf a] else []) = 0 := by
  cases sc
  · rfl
  · exact countA_eq_zero (fun ev hev => by rw [List.mem_singleton.mp hev]; rfl)

lemma countD_send_part (f b lf rf a : Nat) (sc : Bool) :
    countD f b (if sc then [EngineEvent.sendCommand lf rf a] else []) = 0 := by
  cases sc
  · rfl
  · exact countD_eq_zero (fun ev hev => by rw [List.mem_singleton.mp hev]; rfl)

lemma countD_act_pair (f b lf rf a bb : Nat) :
    countD f b [EngineEvent.activate lf a bb, EngineEvent.activate rf a bb] = 0 :=
  countD_eq_zero (fun ev hev => by
    rcases List.mem_cons.mp hev with rfl | hev2
    · rfl
    · rw [List.mem_singleton.mp hev2]
      rfl)

lemma countA_act_pair_ne (f b lf rf a bb : Nat) (hbb : bb ≠ b) :
    countA f b [EngineEvent.activate lf a bb, EngineEvent.activate rf a bb] = 0 :=
  countA_eq_zero (fun ev hev => by
    rcases List.mem_cons.mp hev with rfl | hev2
    · exact isActivateFor_ne_burst hbb
    · rw [List.mem_singleton.mp hev2]
      exact isActivateFor_ne_burst hbb)

lemma countA_deact_part (f b lf rf bb : Nat) (dc : Bool) :
    countA f b (if dc then [EngineEvent.deactivate lf bb, EngineEvent.deactivate rf bb]
      else []) = 0 := by
  cases dc
  · rfl
  · exact countA_eq_zero (fun ev hev => by
      rcases List.mem_cons.mp hev with rfl | hev2
      · rfl
      · rw [List.mem_singleton.mp hev2]
        rfl)

lemma countD_deact_part_ne (f b lf rf bb : Nat) (dc : Bool) (hbb : bb ≠ b) :
    countD f b (if dc then [EngineEvent.deactivate lf bb, EngineEvent.deactivate rf bb]
      else []) = 0 := by
  cases dc
  · rfl
  · exact countD_eq_zero (fun ev hev => by
      rcases List.mem_cons.mp hev with rfl | hev2
      · exact isDeactivateFor_ne_burst hbb
      · rw [List.mem_singleton.mp hev2]
        exact isDeactivateFor_ne_burst hbb)

lemma countD_deact_part_le (f lf rf bb : Nat) (dc : Bool) :
    countD f bb (if dc then [EngineEvent.deactivate lf bb, EngineEvent.deactivate rf bb]
      else []) ≤ pairCount f lf rf := by
  cases dc
  · exact Nat.zero_le _
  · rw [if_pos rfl, countD_pair]

lemma generate_next_pattern_fields {e e' : TherapyEngine}
    (h : e.generate_next_pattern = some e') :
    e'.has_activate = e.has_activate ∧ e'.burst_counter = e.burst_counter ∧
    e'.activation_start = none := by
  simp only [TherapyEngine.generate_next_pattern] at h
  split_ifs at h <;>
    first
    | (rw [Option.some.injEq] at h; subst h; exact ⟨rfl, rfl, rfl⟩)
    | (cases h)

lemma EngineInv_generate {e e' : TherapyEngine} {T : List EngineEvent}
    (h : EngineInv e T) (hg : e.generate_next_pattern = some e') : EngineInv e' T := by
  obtain ⟨ha, hb, hs⟩ := generate_next_pattern_fields hg
  obtain ⟨h1, h2, h3, h4⟩ := h
  refine ⟨by rw [ha]; exact h1, ?_, ?_, h4⟩
  · intro f b hbge
    exact h2 f b (by omega)
  · intro tb htb
    rw [hs] at htb
    cases htb

lemma EngineInv_getD_generate {e1 : TherapyEngine} {T : List EngineEvent}
    (h : EngineInv e1 T) :
    EngineInv ((e1.generate_next_pattern).getD e1) T := by
  cases hg : e1.generate_next_pattern with
  | none => exact h
  | some e2 => exact EngineInv_generate h hg

lemma execute_step_inv {e : TherapyEngine} {p : Pattern} {T : List EngineEvent} (t : ℚ)
    (hp : e.current_pattern = some p) (h : EngineInv e T) :
    EngineInv (e.execute_pattern_step p t).1 (T ++ (e.execute_pattern_step p t).2) := by
  obtain ⟨h1, h2, h3, h4⟩ := h
  have hTle : ∀ f b, countD f b T ≤ countA f b T := by
    intro f b
    have := h4 f b T.length
    rwa [List.take_length] at this
  by_cases hcyc : e.pattern_index ≥ p.left_sequence.length
  · -- cycle-complete branch: only a cycleComplete event can be emitted
    have hnone : e.activation_start = none := by
      cases hsome : e.activation_start with
      | none => rfl
      | some tb =>
        obtain ⟨_, p', hp', hi', _⟩ := h3 tb hsome
        rw [hp] at hp'
        obtain rfl : p = p' := Option.some.inj hp'
        omega
    have hx : e.execute_pattern_step p t
        = ((({ e with cycles_completed := e.cycles_completed + 1 }).generate_next_pattern).getD
            { e with cycles_completed := e.cycles_completed + 1 },
          if e.has_cycle_complete
            then [EngineEvent.cycleComplete (e.cycles_completed + 1)] else []) := by
      simp only [TherapyEngine.execute_pattern_step, if_pos hcyc]
    rw [hx]
    have hinv1 : EngineInv { e with cycles_completed := e.cycles_completed + 1 }
        (T ++ (if e.has_cycle_complete
          then [EngineEvent.cycleComplete (e.cycles_completed + 1)] else [])) := by
      refine ⟨h1, ?_, ?_, ?_⟩
      · intro f b hb
        rw [countA_append, countD_append, countA_cycle_part, countD_cycle_part]
        obtain ⟨ha0, hd0⟩ := h2 f b hb
        omega
      · intro tb htb
        rw [show ({ e with cycles_completed := e.cycles_completed + 1
          } : TherapyEngine).activation_start = e.activation_start from rfl, hnone] at htb
        cases htb
      · intro f b n
        refine prefix_countAD_append (h4 f b) ?_ n
        intro m
        have hd := countD_take_le f b
          (if e.has_cycle_complete
            then [EngineEvent.cycleComplete (e.cycles_completed + 1)] else []) m
        rw [countD_cycle_part] at hd
        have := hTle f b
        omega
    exact EngineInv_getD_generate hinv1
  · by_cases hwait : e.waiting_for_interval = true
    · -- waiting branch: no events, only the two wait fields can change
      have hx : (e.execute_pattern_step p t).2 = [] ∧
          ((e.execute_pattern_step p t).1 = e ∨
            (e.execute_pattern_step p t).1
              = { e with waiting_for_interval := false, interval_start_time := none }) := by
        simp only [TherapyEngine.execute_pattern_step, if_neg hcyc, if_pos hwait]
        split_ifs <;> exact ⟨rfl, by tauto⟩
      obtain ⟨hev, hst⟩ := hx
      rw [hev, List.append_nil]
      rcases hst with hst | hst <;> rw [hst]
      · exact ⟨h1, h2, h3, h4⟩
      · exact EngineInv.congr ⟨h1, h2, h3, h4⟩ h1 rfl rfl rfl rfl
    · cases hsome : e.activation_start with
      | none =>
        -- activation branch: emit the activate pair for the current fingers
        have hx : e.execute_pattern_step p t
            = ({ e with
                  activation_start := some (t, e.burst_counter),
                  burst_counter := e.burst_counter + 1,
                  total_activations := e.total_activations + 2 },
              (if e.has_send_command
                then [EngineEvent.sendCommand (p.left_sequence.getD e.pattern_index 0)
                  (p.right_sequence.getD e.pattern_index 0) 100] else [])
              ++ [EngineEvent.activate (p.left_sequence.getD e.pattern_index 0) 100
                    e.burst_counter,
                  EngineEvent.activate (p.right_sequence.getD e.pattern_index 0) 100
                    e.burst_counter]) := by
          simp only [TherapyEngine.execute_pattern_step, if_neg hcyc, if_neg hwait, hsome,
            h1]
          rw [if_pos trivial]
        rw [hx]
        dsimp only
        have hΔA0 : ∀ f b, e.burst_counter ≠ b →
            countA f b ((if e.has_send_command
              then [EngineEvent.sendCommand (p.left_sequence.getD e.pattern_index 0)
                (p.right_sequence.getD e.pattern_index 0) 100] else [])
              ++ [EngineEvent.activate (p.left_sequence.getD e.pattern_index 0) 100
                    e.burst_counter,
                  EngineEvent.activate (p.right_sequence.getD e.pattern_index 0) 100
                    e.burst_counter]) = 0 := by
          intro f b hb
          rw [countA_append, countA_send_part, countA_act_pair_ne _ _ _ _ _ _ hb]
        have hΔD0 : ∀ f b,
            countD f b ((if e.has_send_command
              then [EngineEvent.sendCommand (p.left_sequence.getD e.pattern_index 0)
                (p.right_sequence.getD e.pattern_index 0) 100] else [])
              ++ [EngineEvent.activate (p.left_sequence.getD e.pattern_index 0) 100
                    e.burst_counter,
                  EngineEvent.activate (p.right_sequence.getD e.pattern_index 0) 100
                    e.burst_counter]) = 0 := by
          intro f b
          rw [countD_append, countD_send_part, countD_act_pair]
        refine ⟨h1, ?_, ?_, ?_⟩
        · intro f b hb
          have hb' : e.burst_counter + 1 ≤ b := hb
          obtain ⟨ha0, hd0⟩ := h2 f b (by omega)
          rw [countA_append, countD_append, hΔA0 f b (by omega), hΔD0 f b]
          omega
        · intro tb htb
          rw [show ({ e with
              activation_start := some (t, e.burst_counter),
              burst_counter := e.burst_counter + 1,
              total_activations := e.total_activations + 2
            } : TherapyEngine).activation_start
              = some (t, e.burst_counter) from rfl, Option.some.injEq] at htb
          subst htb
          refine ⟨Nat.lt_succ_self _, p, hp, lt_of_not_le hcyc, ?_⟩
          intro f
          have hA0 : countA f e.burst_counter T = 0 := (h2 f e.burst_counter le_rfl).1
          have hD0 : countD f e.burst_counter T = 0 := (h2 f e.burst_counter le_rfl).2
          constructor
          · show countA f e.burst_counter (T ++ _)
              = pairCount f (p.left_sequence.getD e.pattern_index 0)
                  (p.right_sequence.getD e.pattern_index 0)
            rw [countA_append, countA_append, countA_send_part, countA_pair, hA0]
            omega
          · show countD f e.burst_counter (T ++ _) = 0
            rw [countD_append, countD_append, countD_send_part, countD_act_pair, hD0]
        · intro f b n
          refine prefix_countAD_append (h4 f b) ?_ n
          intro m
          have hd := countD_take_le f b
            ((if e.has_send_command
              then [EngineEvent.sendCommand (p.left_sequence.getD e.pattern_index 0)
                (p.right_sequence.getD e.pattern_index 0) 100] else [])
              ++ [EngineEvent.activate (p.left_sequence.getD e.pattern_index 0) 100
                    e.burst_counter,
                  EngineEvent.activate (p.right_sequence.getD e.pattern_index 0) 100
                    e.burst_counter]) m
          rw [hΔD0 f b] at hd
          have := hTle f b
          omega
      | some tb =>
        by_cases hel : (t - tb.1) * 1000 ≥ p.burst_duration_ms
        · -- deactivation branch
          obtain ⟨hlt, p', hp', hi', hcnt⟩ := h3 tb hsome
          rw [hp] at hp'
          obtain rfl : p = p' := Option.some.inj hp'
          have hx : e.execute_pattern_step p t
              = ({ e with
                    activation_start := none, waiting_for_interval := true,
                    interval_start_time := some t,
                    pattern_index := e.pattern_index + 1 },
                if e.has_deactivate
                  then [EngineEvent.deactivate (p.left_sequence.getD e.pattern_index 0) tb.2,
                        EngineEvent.deactivate (p.right_sequence.getD e.pattern_index 0) tb.2]
                  else []) := by
            simp only [TherapyEngine.execute_pattern_step, if_neg hcyc, if_neg hwait, hsome,
              if_pos hel]
          rw [hx]
          dsimp only
          refine ⟨h1, ?_, ?_, ?_⟩
          · intro f b hb
            have hb' : e.burst_counter ≤ b := hb
            obtain ⟨ha0, hd0⟩ := h2 f b hb'
            rw [countA_append, countD_append, countA_deact_part,
              countD_deact_part_ne _ _ _ _ _ _ (by omega)]
            omega
          · intro tb2 htb2
            rw [show ({ e with
                activation_start := none, waiting_for_interval := true,
                interval_start_time := some t,
                pattern_index := e.pattern_index + 1
              } : TherapyEngine).activation_start = (none : Option (ℚ × Nat)) from rfl] at htb2
            cases htb2
          · intro f b n
            refine prefix_countAD_append (h4 f b) ?_ n
            intro m
            by_cases hbb : b = tb.2
            · obtain ⟨hAT, hDT⟩ := hcnt f
              have hdle := countD_take_le f tb.2
                (if e.has_deactivate
                  then [EngineEvent.deactivate (p.left_sequence.getD e.pattern_index 0) tb.2,
                        EngineEvent.deactivate (p.right_sequence.getD e.pattern_index 0) tb.2]
                  else []) m
              have hdp := countD_deact_part_le f (p.left_sequence.getD e.pattern_index 0)
                (p.right_sequence.getD e.pattern_index 0) tb.2 e.has_deactivate
              subst hbb
              omega
            · have hdle := countD_take_le f b
                (if e.has_deactivate
                  then [EngineEvent.deactivate (p.left_sequence.getD e.pattern_index 0) tb.2,
                        EngineEvent.deactivate (p.right_sequence.getD e.pattern_index 0) tb.2]
                  else []) m
              rw [countD_deact_part_ne _ _ _ _ _ _ (by omega)] at hdle
              have := hTle f b
              omega
        · -- burst still in progress: no change, no events
          have hx : e.execute_pattern_step p t = (e, []) := by
            simp only [TherapyEngine.execute_pattern_step, if_neg hcyc, if_neg hwait, hsome,
              if_neg hel]
          rw [hx, List.append_nil]
          exact ⟨h1, h2, h3, h4⟩

lemma update_cases (e : TherapyEngine) (t : ℚ) :
    e.update t = (e, []) ∨
    e.update t = ({ e with is_running := false }, []) ∨
    e.update t = ({ e with should_stop := true, is_running := false }, []) ∨
    ∃ p, e.current_pattern = some p ∧ e.update t = e.execute_pattern_step p t := by
  rw [TherapyEngine.update]
  cases hcp : e.current_pattern with
  | none =>
    split_ifs <;>
      first
        | exact Or.inl rfl
        | exact Or.inr (Or.inl rfl)
        | exact Or.inr (Or.inr (Or.inl rfl))
  | some p =>
    split_ifs <;>
      first
        | exact Or.inl rfl
        | exact Or.inr (Or.inl rfl)
        | exact Or.inr (Or.inr (Or.inl rfl))
        | exact Or.inr (Or.inr (Or.inr ⟨p, rfl, rfl⟩))

lemma update_inv {e : TherapyEngine} {T : List EngineEvent} (t : ℚ)
    (h : EngineInv e T) : EngineInv (e.update t).1 (T ++ (e.update t).2) := by
  rcases update_cases e t with hu | hu | hu | ⟨p, hp, hu⟩ <;> rw [hu] <;>
    try simp only [List.append_nil]
  · exact h
  · exact EngineInv.congr h h.1 rfl rfl rfl rfl
  · exact EngineInv.congr h h.1 rfl rfl rfl rfl
  · exact execute_step_inv t hp h

lemma engineStep_inv {e : TherapyEngine} {T : List EngineEvent} {a : EngineAction}
    (ha : a ≠ EngineAction.setActivate false) (h : EngineInv e T) :
    EngineInv (engineStep e a).1 (T ++ (engineStep e a).2) := by
  cases a with
  | startSession d pt ton toff jp nf mp t =>
    dsimp only [engineStep]
    rw [List.append_nil]
    have h1 : EngineInv
        { e with
          is_running := true
          is_paused := false
          should_stop := false
          cycles_completed := 0
          total_activations := 0
          session_start_time := some t
          session_duration_sec := some d
          pattern_config := some ⟨pt, ton, toff, jp, nf, mp⟩ } T :=
      EngineInv.congr h h.1 rfl rfl rfl rfl
    exact EngineInv_getD_generate h1
  | update t => exact update_inv t h
  | pause =>
    dsimp only [engineStep]
    rw [List.append_nil]
    exact EngineInv.congr h h.1 rfl rfl rfl rfl
  | resume =>
    dsimp only [engineStep]
    rw [List.append_nil]
    exact EngineInv.congr h h.1 rfl rfl rfl rfl
  | stop =>
    dsimp only [engineStep]
    rw [List.append_nil]
    exact EngineInv.congr h h.1 rfl rfl rfl rfl
  | setSendCommand b =>
    dsimp only [engineStep]
    rw [List.append_nil]
    exact EngineInv.congr h h.1 rfl rfl rfl rfl
  | setActivate b =>
    have hb : b = true := by
      cases b
      · exact absurd rfl ha
      · rfl
    subst hb
    dsimp only [engineStep]
    rw [List.append_nil]
    exact EngineInv.congr h rfl rfl rfl rfl rfl
  | setDeactivate b =>
    dsimp only [engineStep]
    rw [List.append_nil]
    exact EngineInv.congr h h.1 rfl rfl rfl rfl
  | setCycleComplete b =>
    dsimp only [engineStep]
    rw [List.append_nil]
    exact EngineInv.congr h h.1 rfl rfl rfl rfl

lemma engineRun_inv : ∀ (acts : List EngineAction) (e : TherapyEngine)
    (T : List EngineEvent), EngineInv e T →
    (∀ a ∈ acts, a ≠ EngineAction.setActivate false) →
    EngineInv (engineRun e acts).1 (T ++ (engineRun e acts).2) := by
  intro acts
  induction acts with
  | nil =>
    intro e T h _
    rw [engineRun, List.append_nil]
    exact h
  | cons a rest ih =>
    intro e T h hall
    have h1 := engineStep_inv (hall a (List.mem_cons_self a rest)) h
    have h2 := ih (engineStep e a).1 (T ++ (engineStep e a).2) h1
      (fun a2 ha2 => hall a2 (List.mem_cons_of_mem a ha2))
    rw [engineRun]
    dsimp only
    rw [← List.append_assoc]
    exact h2

lemma EngineInv_init (rng : PyRandom) :
    EngineInv { TherapyEngine.init rng with has_activate := true } [] := by
  refine ⟨rfl, fun f b _ => ⟨rfl, rfl⟩, ?_, ?_⟩
  · intro tb htb
    exact Option.noConfusion htb
  · intro f b n
    rw [List.take_nil]
    simp [countD, countA]

/-- C7: the claim as stated quantifies over every callback configuration,
and fails when the deactivate callback is installed but the activate
callback is not (see `deactivate_unmatched_cex`): `_execute_pattern_step`
guards each callback invocation separately with `if self._xxx_callback:`,
so the deactivate pair at burst end fires even though no activate was
ever issued.  Amended: provided the activate callback is installed and
never removed, every prefix of the callback trace contains at least as
many activate invocations as deactivate invocations for each finger and
burst, i.e. no deactivate is issued without a preceding unmatched
activate for the same actuator in the same burst. -/
theorem deactivate_matched (rng : PyRandom) (acts : List EngineAction)
    (hacts : ∀ a ∈ acts, a ≠ EngineAction.setActivate false) :
    ∀ f b n,
      countD f b (((engineRun { TherapyEngine.init rng with has_activate := true }
          acts).2).take n)
        ≤ countA f b (((engineRun { TherapyEngine.init rng with has_activate := true }
          acts).2).take n) := by
  intro f b n
  have h := (engineRun_inv acts
    { TherapyEngine.init rng with has_activate := true } [] (EngineInv_init rng)
    hacts).2.2.2 f b n
  rwa [List.nil_append] at h

/-- Witness for C7 at a concrete session: deactivate callback installed,
a session started with pattern type `rndp`, zero jitter and the
all-zeros random stream, and two updates (one activating, one
deactivating past the burst duration); at prefix length 5, finger 1,
burst 0 the inequality holds. -/
theorem deactivate_matched_witness :
    (∀ a ∈ ([EngineAction.setDeactivate true,
        EngineAction.startSession 10000 "rndp" 100 67 0 5 true 1,
        EngineAction.update 1, EngineAction.update 2] : List EngineAction),
      a ≠ EngineAction.setActivate false) ∧
    countD 1 0 (((engineRun { TherapyEngine.init zeroRng with has_activate := true }
        [EngineAction.setDeactivate true,
         EngineAction.startSession 10000 "rndp" 100 67 0 5 true 1,
         EngineAction.update 1, EngineAction.update 2]).2).take 5)
      ≤ countA 1 0 (((engineRun { TherapyEngine.init zeroRng with has_activate := true }
        [EngineAction.setDeactivate true,
         EngineAction.startSession 10000 "rndp" 100 67 0 5 true 1,
         EngineAction.update 1, EngineAction.update 2]).2).take 5) :=
  ⟨by decide, deactivate_matched zeroRng
    [EngineAction.setDeactivate true,
     EngineAction.startSession 10000 "rndp" 100 67 0 5 true 1,
     EngineAction.update 1, EngineAction.update 2] (by decide) 1 0 5⟩

/-- Counterexample to C7 as stated: with the deactivate callback
installed but no activate callback (a configuration the claim
explicitly includes), the engine emits two deactivate invocations for
finger 0 in burst 0 although no activate invocation was ever issued. -/
theorem deactivate_unmatched_cex :
    (engineRun (TherapyEngine.init zeroRng)
        [EngineAction.setDeactivate true,
         EngineAction.startSession 10000 "rndp" 100 67 0 1 true 1,
         EngineAction.update 1, EngineAction.update 2]).2
      = [EngineEvent.deactivate 0 0, EngineEvent.deactivate 0 0] ∧
    countA 0 0 ((engineRun (TherapyEngine.init zeroRng)
        [EngineAction.setDeactivate true,
         EngineAction.startSession 10000 "rndp" 100 67 0 1 true 1,
         EngineAction.update 1, EngineAction.update 2]).2) = 0 ∧
    countD 0 0 ((engineRun (TherapyEngine.init zeroRng)
        [EngineAction.setDeactivate true,
         EngineAction.startSession 10000 "rndp" 100 67 0 1 true 1,
         EngineAction.update 1, EngineAction.update 2]).2) = 2 := by
  have h : (engineRun (TherapyEngine.init zeroRng)
      [EngineAction.setDeactivate true,
       EngineAction.startSession 10000 "rndp" 100 67 0 1 true 1,
       EngineAction.update 1, EngineAction.update 2]).2
      = [EngineEvent.deactivate 0 0, EngineEvent.deactivate 0 0] := by
    norm_num [engineRun, engineStep, TherapyEngine.init, TherapyEngine.update,
      TherapyEngine.start_session, TherapyEngine.generate_next_pattern,
      TherapyEngine.execute_pattern_step, generate_random_permutation,
      PyRandom.shuffle, shuffleFrom, genTimingLoop, pyUniformVal, zeroRng,
      pyTruthy, pyTruthyPattern, List.range_succ, List.range_zero,
      Bool.and_eq_true, bne_iff_ne]
  refine ⟨h, ?_, ?_⟩ <;> rw [h] <;> decide

end BlueBuzzah
